import Mathlib

/-!
Verification of the Go board engine in `correspodence_go` (board.py, cli.py).

The engine state (class `GoBoard`) is embedded as a structure; the grid
(`self.board`, a size x size matrix of `Stone`) is embedded as a total
function `Int → Int → Stone` read and written only through the same
bounds-checked paths as the Python code.  Pure helpers on the grid
(`_get_neighbors`, `_get_group`, `_has_liberties`, `_remove_group`,
`_capture_stones`, the ko-candidate scan inside `place_stone`) are embedded
as functions of the board size and grid; the stateful methods
(`is_valid_move`, `place_stone`) are embedded as state-passing functions
returning the flag the Python method returns together with the state the
Python object holds afterwards.
-/

namespace CorrespodenceGo

/-- Intersection state, mirroring `class Stone(Enum)` with values
EMPTY = 0, BLACK = 1, WHITE = 2. -/
inductive Stone : Type where
  | EMPTY : Stone
  | BLACK : Stone
  | WHITE : Stone
deriving DecidableEq, Repr

/-- The enum value of a stone (`Stone.EMPTY.value = 0`, etc.). -/
def Stone.value : Stone → Nat
  | .EMPTY => 0
  | .BLACK => 1
  | .WHITE => 2

/-- Mirrors `Stone.opposite`: black and white swap, empty maps to empty. -/
def Stone.opposite : Stone → Stone
  | .BLACK => .WHITE
  | .WHITE => .BLACK
  | .EMPTY => .EMPTY

/-- Inverse of `Stone.value`, total with default EMPTY; the Python
constructor `Stone(v)` raises for values outside 0..2, which the callers
below guard against explicitly. -/
def stoneOfValue (v : Nat) : Stone :=
  if v = 0 then Stone.EMPTY else if v = 1 then Stone.BLACK
  else Stone.WHITE

/-- A move record, mirroring `@dataclass class Move` (x : column,
y : row, color).  Passes are recorded by the CLI as coordinates (-1, -1). -/
structure Move : Type where
  x : Int
  y : Int
  color : Stone
deriving DecidableEq, Repr

/-- The grid of intersection states (`self.board`, indexed grid[y][x] in
Python; here a curried function of x and y). -/
def Grid : Type := Int → Int → Stone

/-- Read the grid at (x, y); mirrors the in-bounds branch of `GoBoard.get`. -/
def gridGet (g : Grid) (x y : Int) : Stone := g x y

/-- Write the grid at (x, y); mirrors the in-bounds branch of `GoBoard.set`. -/
def gridSet (g : Grid) (x y : Int) (s : Stone) : Grid :=
  fun a b => if a = x ∧ b = y then s else g a b

/-- Mirrors `GoBoard._is_valid_position`: 0 <= x < size and 0 <= y < size. -/
def inBounds (size : Nat) (x y : Int) : Prop :=
  0 ≤ x ∧ x < (size : Int) ∧ 0 ≤ y ∧ y < (size : Int)

instance (size : Nat) (x y : Int) : Decidable (inBounds size x y) := by
  unfold inBounds; infer_instance

/-- Mirrors `GoBoard._get_neighbors`: the in-bounds orthogonal neighbours,
generated from the offsets [(0,1), (1,0), (0,-1), (-1,0)] in that order. -/
def neighbors (size : Nat) (p : Int × Int) : List (Int × Int) :=
  [(p.1, p.2 + 1), (p.1 + 1, p.2), (p.1, p.2 - 1), (p.1 - 1, p.2)].filter
    (fun q => decide (inBounds size q.1 q.2))

/-- The finite set of in-bounds positions of a board of the given size. -/
def cells (size : Nat) : Finset (Int × Int) :=
  Finset.Icc (0 : Int) ((size : Int) - 1) ×ˢ Finset.Icc (0 : Int) ((size : Int) - 1)

/-- Worklist loop of `GoBoard._get_group`: pop a position, skip it when
already collected, otherwise collect it and push its same-colour in-bounds
neighbours that are not yet collected.  The Python `while to_check:` loop
is driven here by a fuel argument; `groupFuel` below always suffices. -/
def groupLoop (size : Nat) (g : Grid) (c : Stone) :
    Nat → Finset (Int × Int) → List (Int × Int) → Finset (Int × Int)
  | 0, group, _ => group
  | _ + 1, group, [] => group
  | fuel + 1, group, p :: rest =>
    if p ∈ group then groupLoop size g c fuel group rest
    else
      groupLoop size g c fuel (insert p group)
        (((neighbors size p).filter
            (fun q => decide (gridGet g q.1 q.2 = c ∧ q ∉ insert p group))) ++ rest)

/-- Enough fuel for `groupLoop` to drain its worklist on any board of the
given size (see `groupLoop_spec`). -/
def groupFuel (size : Nat) : Nat := 5 * (size * size) + 1

/-- Mirrors `GoBoard._get_group`: empty set on an empty seed, otherwise the
flood fill over same-colour orthogonal adjacency from (x, y). -/
def getGroup (size : Nat) (g : Grid) (x y : Int) : Finset (Int × Int) :=
  if gridGet g x y = Stone.EMPTY then ∅
  else groupLoop size g (gridGet g x y) (groupFuel size) ∅ [(x, y)]

/-- Mirrors `GoBoard._has_liberties`: some member of the group has an
adjacent empty intersection. -/
def hasLiberties (size : Nat) (g : Grid) (grp : Finset (Int × Int)) : Prop :=
  ∃ p ∈ grp, ∃ q ∈ neighbors size p, gridGet g q.1 q.2 = Stone.EMPTY

instance (size : Nat) (g : Grid) (grp : Finset (Int × Int)) :
    Decidable (hasLiberties size g grp) := by
  unfold hasLiberties; infer_instance

/-- Mirrors `GoBoard._remove_group`: set every member to EMPTY and report
the number of stones removed (the group's cardinality). -/
def removeGroupG (g : Grid) (grp : Finset (Int × Int)) : Grid × Nat :=
  (fun a b => if (a, b) ∈ grp then Stone.EMPTY else g a b, grp.card)

/-- One iteration of the loop in `GoBoard._capture_stones`: when the
neighbour holds an opposite-colour stone whose group has no liberties,
remove that group and add its size to the running count. -/
def captureStep (size : Nat) (c : Stone) (acc : Grid × Nat) (n : Int × Int) :
    Grid × Nat :=
  if gridGet acc.1 n.1 n.2 = c.opposite then
    let grp := getGroup size acc.1 n.1 n.2
    if ¬ hasLiberties size acc.1 grp then
      ((removeGroupG acc.1 grp).1, acc.2 + (removeGroupG acc.1 grp).2)
    else acc
  else acc

/-- Mirrors `GoBoard._capture_stones`: for each neighbour of (x, y) holding
an opposite-colour stone whose group has no liberties, remove that group,
accumulating the total number of stones removed. -/
def captureStonesG (size : Nat) (g : Grid) (x y : Int) (c : Stone) : Grid × Nat :=
  (neighbors size (x, y)).foldl (captureStep size c) (g, 0)

/-- The ko-candidate scan inside `GoBoard.place_stone` (run only when
exactly one stone was captured): walk the neighbours of (x, y); at the
first empty one, speculatively place the opposite colour there; if that
lone stone is a group of size one the scan ends (`break`), setting the ko
point there exactly when it would strip the last liberty of the group of
the stone just played. -/
def findKoG (size : Nat) (g : Grid) (x y : Int) (c : Stone) :
    List (Int × Int) → Option (Int × Int)
  | [] => none
  | n :: rest =>
    if gridGet g n.1 n.2 = Stone.EMPTY then
      let sp := gridSet g n.1 n.2 c.opposite
      if (getGroup size sp n.1 n.2).card = 1 then
        if ¬ hasLiberties size sp (getGroup size sp x y) then some n else none
      else findKoG size g x y c rest
    else findKoG size g x y c rest

/-- The engine state, mirroring the attributes set in `GoBoard.__init__`.
The constructor additionally rejects sizes outside 9, 13, 19; that guard
is kept at the call sites that exercise it (`loadFromDict`, `Reachable`). -/
structure GoBoard : Type where
  size : Nat
  grid : Grid
  captured_black : Nat
  captured_white : Nat
  move_history : List Move
  ko_point : Option (Int × Int)

/-- A fresh board of the given size: empty grid, zero counters, empty
history, no ko point. -/
def emptyBoard (size : Nat) : GoBoard :=
  { size := size
  , grid := fun _ _ => Stone.EMPTY
  , captured_black := 0
  , captured_white := 0
  , move_history := []
  , ko_point := none }

/-- Mirrors `GoBoard.get` on in-bounds coordinates. -/
def GoBoard.get (b : GoBoard) (x y : Int) : Stone := gridGet b.grid x y

/-- Mirrors `GoBoard.is_valid_move` as a state-passing function: the flag
it returns, together with the state of the object after the call.  The
speculative placement and captures happen on a copy-then-restored grid
(`saved_board` in the source); every early return leaves the state as it
was. -/
def isValidMoveSt (b : GoBoard) (x y : Int) (c : Stone) : Bool × GoBoard :=
  if ¬ inBounds b.size x y then (false, b)
  else if b.get x y ≠ Stone.EMPTY then (false, b)
  else if b.ko_point = some (x, y) then (false, b)
  else
    let saved := b.grid
    let b1 : GoBoard := { b with grid := gridSet b.grid x y c }
    let cap := captureStonesG b1.size b1.grid x y c
    let b2 : GoBoard := { b1 with grid := cap.1 }
    let isSuicide :=
      ¬ hasLiberties b2.size b2.grid (getGroup b2.size b2.grid x y) ∧ cap.2 = 0
    (! decide isSuicide, { b2 with grid := saved })

/-- The boolean verdict of `GoBoard.is_valid_move`. -/
def isValidMove (b : GoBoard) (x y : Int) (c : Stone) : Bool :=
  (isValidMoveSt b x y c).1

/-- Mirrors `GoBoard.place_stone`: re-check legality (failure leaves the
state untouched), place the stone, resolve captures, add the capture count
to the counter of the colour removed, recompute the ko point from scratch
(only a single-stone capture can set it), and append the move to the
history. -/
def placeStone (b : GoBoard) (x y : Int) (c : Stone) : Bool × GoBoard :=
  if isValidMove b x y c = false then (false, b)
  else
    let g1 := gridSet b.grid x y c
    let cap := captureStonesG b.size g1 x y c
    let cb := if c = Stone.BLACK then b.captured_black else b.captured_black + cap.2
    let cw := if c = Stone.BLACK then b.captured_white + cap.2 else b.captured_white
    let ko := if cap.2 = 1 then findKoG b.size cap.1 x y c (neighbors b.size (x, y))
              else none
    (true,
      { b with
          grid := cap.1
        , captured_black := cb
        , captured_white := cw
        , ko_point := ko
        , move_history := b.move_history ++ [⟨x, y, c⟩] })

/-- The serializable snapshot produced by `GoBoard.save_to_dict`: size, the
grid as rows (y-major) of stone values, both counters, the history as
(x, y, colour-value) triples, and the optional ko point. -/
structure SaveDict : Type where
  size : Nat
  board : List (List Nat)
  captured_black : Nat
  captured_white : Nat
  moves : List (Int × Int × Nat)
  ko_point : Option (Int × Int)
deriving DecidableEq, Repr

/-- Mirrors `GoBoard.save_to_dict`. -/
def saveToDict (b : GoBoard) : SaveDict :=
  { size := b.size
  , board := (List.range b.size).map
      (fun y : Nat => (List.range b.size).map
        (fun x : Nat => (b.get (Int.ofNat x) (Int.ofNat y)).value))
  , captured_black := b.captured_black
  , captured_white := b.captured_white
  , moves := b.move_history.map (fun m => (m.x, m.y, m.color.value))
  , ko_point := b.ko_point }

/-- Shape validity of a snapshot: a size the `GoBoard` constructor accepts,
a size x size grid of stone values 0..2, and valid colour codes in the
history.  On data violating this the Python loader raises (ValueError from
the constructor or the `Stone` call, or an IndexError); the embedding
returns `none` there. -/
def saveDictValid (d : SaveDict) : Prop :=
  (d.size = 9 ∨ d.size = 13 ∨ d.size = 19) ∧
  d.board.length = d.size ∧
  (∀ row ∈ d.board, row.length = d.size ∧ ∀ v ∈ row, v ≤ 2) ∧
  (∀ m ∈ d.moves, m.2.2 ≤ 2)

instance (d : SaveDict) : Decidable (saveDictValid d) := by
  unfold saveDictValid; infer_instance

/-- Mirrors `GoBoard.load_from_dict`: build a fresh board of the stored
size, restore every in-bounds grid cell from the stored values, restore
both counters, the history, and the ko point (`tuple(ko) if ko else None`;
a stored pair is always truthy, so the pair is restored as is). -/
def loadFromDict (d : SaveDict) : Option GoBoard :=
  if saveDictValid d then
    some
      { size := d.size
      , grid := fun x y =>
          if inBounds d.size x y then
            stoneOfValue ((d.board.getD y.toNat []).getD x.toNat 0)
          else Stone.EMPTY
      , captured_black := d.captured_black
      , captured_white := d.captured_white
      , move_history := d.moves.map (fun m => ⟨m.1, m.2.1, stoneOfValue m.2.2⟩)
      , ko_point := if d.ko_point.isSome then d.ko_point else none }
  else none

/-- The replay loop of `cli.cmd_show`: play every history entry in order
through `place_stone` on a fresh board, skipping pass entries (moves with
a negative coordinate); a rejected entry leaves the board unchanged, as
the Python call's return value is ignored there. -/
def replayMoves (size : Nat) (moves : List Move) : GoBoard :=
  moves.foldl
    (fun bd m => if 0 ≤ m.x ∧ 0 ≤ m.y then (placeStone bd m.x m.y m.color).2 else bd)
    (emptyBoard size)

/-- Modelled from the spec: `GoBoard.undo_last_move` is called by
`cli.cmd_undo` but is not among the methods of `GoBoard` in the provided
`board.py`.  Per the spec's undo capability it returns false and changes
nothing when the history is empty; otherwise it removes the last history
entry and reconstructs the grid, both capture counters, and the ko point
from scratch by replaying every remaining entry in order through placement
on a fresh empty board of the same size, skipping pass entries. -/
def undoLastMove (b : GoBoard) : Bool × GoBoard :=
  if b.move_history = [] then (false, b)
  else
    let hist := b.move_history.dropLast
    let r := replayMoves b.size hist
    (true,
      { b with
          grid := r.grid
        , captured_black := r.captured_black
        , captured_white := r.captured_white
        , ko_point := r.ko_point
        , move_history := hist })

/-- Mirrors `Move.to_human_coords`: the column letter is 'A' plus the
column index with no letters skipped, the row is the row index plus one. -/
def toHumanCoords (m : Move) : String :=
  String.mk [Char.ofNat ('A'.toNat + m.x.toNat)] ++ toString (m.y + 1)

/-- Decimal digit-string value, modelling Python's `int` on a non-empty
all-digit string (`none` models the ValueError raised otherwise). -/
def parseNatDigits (cs : List Char) : Option Nat :=
  if cs = [] then none
  else if cs.all (fun ch => ch.isDigit) then
    some (cs.foldl (fun n ch => n * 10 + (ch.toNat - '0'.toNat)) 0)
  else none

/-- Python's `int` on a possibly negative decimal string. -/
def parseIntChars : List Char → Option Int
  | '-' :: rest => (parseNatDigits rest).map (fun n => -(n : Int))
  | cs => (parseNatDigits cs).map (fun n => (n : Int))

/-- Mirrors `Move.from_human_coords`: 2 or 3 characters, the first letter
upper-cased minus 'A' as the column (no letter rejected, no skip reversed),
the remaining characters parsed as the 1-based row.  `none` models the
ValueError raised on a malformed string. -/
def fromHumanCoords (s : String) (c : Stone) : Option Move :=
  if s.length < 2 ∨ 3 < s.length then none
  else
    match s.data with
    | [] => none
    | ch :: rest =>
      match parseIntChars rest with
      | none => none
      | some row => some ⟨(ch.toUpper.toNat : Int) - ('A'.toNat : Int), row - 1, c⟩

/-- One step of same-colour adjacency on a grid: both endpoints in bounds,
orthogonally adjacent, both of colour `c`. -/
def stepRel (size : Nat) (g : Grid) (c : Stone) (p q : Int × Int) : Prop :=
  inBounds size p.1 p.2 ∧ q ∈ neighbors size p ∧
    gridGet g p.1 p.2 = c ∧ gridGet g q.1 q.2 = c

/-- Same-colour connectivity: the reflexive-transitive closure of
`stepRel`.  This is the specification that the flood fill of
`_get_group` is proved to compute. -/
def Conn (size : Nat) (g : Grid) (c : Stone) (s p : Int × Int) : Prop :=
  Relation.ReflTransGen (stepRel size g c) s p

/-- Relation between the grid right after speculative placement (`g1`) and
a grid produced from it by some prefix of the `_capture_stones` loop: every
changed cell was an enemy stone, is now empty, and its whole `g1`-group (a
libertyless group touching a neighbour of the played point) has been
emptied. -/
def CaptureInv (size : Nat) (g1 gc : Grid) (x y : Int) (e : Stone) : Prop :=
  ∀ p : Int × Int, gridGet gc p.1 p.2 ≠ gridGet g1 p.1 p.2 →
    gridGet g1 p.1 p.2 = e ∧ gridGet gc p.1 p.2 = Stone.EMPTY ∧ p ∈ cells size ∧
    ¬ hasLiberties size g1 (getGroup size g1 p.1 p.2) ∧
    (∀ q ∈ getGroup size g1 p.1 p.2, gridGet gc q.1 q.2 = Stone.EMPTY) ∧
    (∃ n ∈ neighbors size (x, y), n ∈ getGroup size g1 p.1 p.2)

/-- The set of positions emptied by capture resolution: enemy-coloured in
the pre-capture grid, empty afterwards. -/
def removedSet (size : Nat) (g1 gc : Grid) (e : Stone) : Finset (Int × Int) :=
  (cells size).filter
    (fun p => gridGet g1 p.1 p.2 = e ∧ gridGet gc p.1 p.2 = Stone.EMPTY)

/-- Board states reachable from a fresh board of a legal size by successful
`place_stone` calls. -/
inductive Reachable : GoBoard → Prop where
  | base (size : Nat) (h : size = 9 ∨ size = 13 ∨ size = 19) :
      Reachable (emptyBoard size)
  | step (b : GoBoard) (x y : Int) (c : Stone) (hb : Reachable b)
      (h : (placeStone b x y c).1 = true) : Reachable (placeStone b x y c).2

/-- A 9x9 board with a single black stone at (2, 2), built by one
successful placement; used as a concrete test state. -/
def boardOneStone : GoBoard := (placeStone (emptyBoard 9) 2 2 Stone.BLACK).2

/-- A 9x9 board with white stones at (0, 1) and (1, 0): the two in-bounds
neighbours of the corner (0, 0) are enemy-coloured for black. -/
def boardCorner : GoBoard :=
  (placeStone (placeStone (emptyBoard 9) 0 1 Stone.WHITE).2 1 0 Stone.WHITE).2

/-- A 9x9 board with a white stone at (0, 0) and a black stone at (1, 0):
black playing (0, 1) captures the white corner stone. -/
def boardPreCapture : GoBoard :=
  (placeStone (placeStone (emptyBoard 9) 0 0 Stone.WHITE).2 1 0 Stone.BLACK).2

/-- A 9x9 board state with a ko point set at (1, 1). -/
def boardWithKo : GoBoard := { emptyBoard 9 with ko_point := some (1, 1) }

/-- A 9x9 ko setup: black stones at (1,2), (2,1), (2,3) and white stones at
(3,1), (4,2), (3,3), (2,2).  Black playing (3,2) captures the single white
stone at (2,2) and creates a ko there. -/
def boardKoSetup : GoBoard :=
  (placeStone (placeStone (placeStone (placeStone (placeStone (placeStone
    (placeStone (emptyBoard 9) 1 2 Stone.BLACK).2
      2 1 Stone.BLACK).2 2 3 Stone.BLACK).2 3 1 Stone.WHITE).2
      4 2 Stone.WHITE).2 3 3 Stone.WHITE).2 2 2 Stone.WHITE).2

/-! ### Positions, adjacency, and same-colour connectivity -/

theorem mem_neighbors_iff {size : Nat} {p q : Int × Int} :
    q ∈ neighbors size p ↔
      inBounds size q.1 q.2 ∧
        ((q.1 = p.1 ∧ (q.2 = p.2 + 1 ∨ q.2 = p.2 - 1)) ∨
         (q.2 = p.2 ∧ (q.1 = p.1 + 1 ∨ q.1 = p.1 - 1))) := by
  simp only [neighbors, List.mem_filter, decide_eq_true_eq, List.mem_cons,
    List.mem_singleton, List.not_mem_nil, or_false, Prod.ext_iff]
  constructor
  · rintro ⟨h, hb⟩
    exact ⟨hb, by omega⟩
  · rintro ⟨hb, h⟩
    exact ⟨by omega, hb⟩

theorem inBounds_of_mem_neighbors {size : Nat} {p q : Int × Int}
    (h : q ∈ neighbors size p) : inBounds size q.1 q.2 :=
  (mem_neighbors_iff.mp h).1

theorem mem_neighbors_symm {size : Nat} {p q : Int × Int}
    (hp : inBounds size p.1 p.2) (h : q ∈ neighbors size p) :
    p ∈ neighbors size q := by
  rcases mem_neighbors_iff.mp h with ⟨_, hadj⟩
  exact mem_neighbors_iff.mpr ⟨hp, by omega⟩

theorem neighbors_length_le {size : Nat} (p : Int × Int) :
    (neighbors size p).length ≤ 4 := by
  have := List.length_filter_le
    (fun q : Int × Int => decide (inBounds size q.1 q.2))
    [(p.1, p.2 + 1), (p.1 + 1, p.2), (p.1, p.2 - 1), (p.1 - 1, p.2)]
  simpa [neighbors] using this

theorem mem_cells {size : Nat} {p : Int × Int} :
    p ∈ cells size ↔ inBounds size p.1 p.2 := by
  simp only [cells, Finset.mem_product, Finset.mem_Icc, inBounds]
  omega

theorem cells_card (size : Nat) : (cells size).card = size * size := by
  have h : ((size : Int) - 1 + 1 - 0).toNat = size := by
    have h' : ((size : Int) - 1 + 1 - 0) = (size : Int) := by ring
    rw [h', Int.toNat_natCast]
  simp only [cells, Finset.card_product, Int.card_Icc, h]

theorem stepRel_symm {size : Nat} {g : Grid} {c : Stone} {p q : Int × Int}
    (h : stepRel size g c p q) : stepRel size g c q p := by
  obtain ⟨hp, hq, hcp, hcq⟩ := h
  exact ⟨inBounds_of_mem_neighbors hq, mem_neighbors_symm hp hq, hcq, hcp⟩

theorem conn_symm {size : Nat} {g : Grid} {c : Stone} {s p : Int × Int}
    (h : Conn size g c s p) : Conn size g c p s :=
  Relation.ReflTransGen.symmetric (fun _ _ => stepRel_symm) h

theorem conn_trans {size : Nat} {g : Grid} {c : Stone} {s p q : Int × Int}
    (h1 : Conn size g c s p) (h2 : Conn size g c p q) : Conn size g c s q :=
  Relation.ReflTransGen.trans h1 h2

theorem conn_color {size : Nat} {g : Grid} {c : Stone} {s p : Int × Int}
    (hs : gridGet g s.1 s.2 = c) (h : Conn size g c s p) :
    gridGet g p.1 p.2 = c := by
  induction h with
  | refl => exact hs
  | tail _ st _ => exact st.2.2.2

theorem conn_inBounds {size : Nat} {g : Grid} {c : Stone} {s p : Int × Int}
    (hs : inBounds size s.1 s.2) (h : Conn size g c s p) :
    inBounds size p.1 p.2 := by
  induction h with
  | refl => exact hs
  | tail _ st _ => exact inBounds_of_mem_neighbors st.2.1

/-- Connectivity transfers to a second grid that agrees with the first on
the whole connected component of the seed. -/
theorem conn_congr {size : Nat} {gA gB : Grid} {c : Stone} {s p : Int × Int}
    (h : Conn size gA c s p)
    (heq : ∀ m, Conn size gA c s m → gridGet gB m.1 m.2 = gridGet gA m.1 m.2) :
    Conn size gB c s p := by
  induction h with
  | refl => exact Relation.ReflTransGen.refl
  | tail h' st ih =>
    rename_i m p'
    refine Relation.ReflTransGen.tail ih ⟨st.1, st.2.1, ?_, ?_⟩
    · rw [heq m h']; exact st.2.2.1
    · rw [heq p' (h'.tail st)]; exact st.2.2.2

/-- Connectivity is monotone along grid changes that preserve the cells of
colour `c`. -/
theorem conn_mono {size : Nat} {gA gB : Grid} {c : Stone} {s p : Int × Int}
    (hpres : ∀ m : Int × Int, gridGet gA m.1 m.2 = c → gridGet gB m.1 m.2 = c)
    (h : Conn size gA c s p) : Conn size gB c s p := by
  induction h with
  | refl => exact Relation.ReflTransGen.refl
  | tail h' st ih =>
    exact Relation.ReflTransGen.tail ih
      ⟨st.1, st.2.1, hpres _ st.2.2.1, hpres _ st.2.2.2⟩

/-- Correctness of the worklist flood fill: starting from a collected set
and a worklist that both consist of positions connected to the seed and of
the seed's colour, with the collected set closed up to the worklist and
enough fuel, the loop returns exactly a set that contains both, consists of
such positions, and is closed under same-colour adjacency. -/
theorem groupLoop_spec (size : Nat) (g : Grid) (c : Stone) (s : Int × Int) :
    ∀ (fuel : Nat) (grp : Finset (Int × Int)) (tc : List (Int × Int)),
      (∀ p ∈ grp, Conn size g c s p ∧ gridGet g p.1 p.2 = c ∧ p ∈ cells size) →
      (∀ p ∈ tc, Conn size g c s p ∧ gridGet g p.1 p.2 = c ∧ p ∈ cells size) →
      (∀ p ∈ grp, ∀ q ∈ neighbors size p, gridGet g q.1 q.2 = c →
        q ∈ grp ∨ q ∈ tc) →
      5 * ((cells size).card - grp.card) + tc.length ≤ fuel →
      grp ⊆ cells size →
      (grp ⊆ groupLoop size g c fuel grp tc) ∧
      (∀ p ∈ tc, p ∈ groupLoop size g c fuel grp tc) ∧
      (∀ p ∈ groupLoop size g c fuel grp tc,
        Conn size g c s p ∧ gridGet g p.1 p.2 = c ∧ p ∈ cells size) ∧
      (∀ p ∈ groupLoop size g c fuel grp tc, ∀ q ∈ neighbors size p,
        gridGet g q.1 q.2 = c → q ∈ groupLoop size g c fuel grp tc) := by
  intro fuel
  induction fuel with
  | zero =>
    intro grp tc h1 h2 h3 hf _
    have htc : tc = [] := by
      cases tc with
      | nil => rfl
      | cons a l => simp at hf
    subst htc
    refine ⟨Finset.Subset.refl _, by simp, h1, ?_⟩
    intro p hp q hq hcq
    rcases h3 p hp q hq hcq with h | h
    · exact h
    · simp at h
  | succ fuel ih =>
    intro grp tc h1 h2 h3 hf hsub
    match tc with
    | [] =>
      simp only [groupLoop]
      refine ⟨Finset.Subset.refl _, by simp, h1, ?_⟩
      intro p hp q hq hcq
      rcases h3 p hp q hq hcq with h | h
      · exact h
      · simp at h
    | p :: rest =>
      by_cases hp : p ∈ grp
      · simp only [groupLoop, if_pos hp]
        have hrec := ih grp rest h1
          (fun q hq => h2 q (List.mem_cons_of_mem _ hq))
          (by
            intro a ha q hq hcq
            rcases h3 a ha q hq hcq with h | h
            · exact Or.inl h
            · rcases List.mem_cons.mp h with rfl | h
              · exact Or.inl hp
              · exact Or.inr h)
          (by simp at hf ⊢; omega) hsub
        refine ⟨hrec.1, ?_, hrec.2.2.1, hrec.2.2.2⟩
        intro a ha
        rcases List.mem_cons.mp ha with rfl | ha
        · exact hrec.1 hp
        · exact hrec.2.1 a ha
      · simp only [groupLoop, if_neg hp]
        have hpc : p ∈ cells size := (h2 p (List.mem_cons_self _ _)).2.2
        have hcard : grp.card < (cells size).card :=
          Finset.card_lt_card (Finset.ssubset_iff_of_subset hsub |>.mpr ⟨p, hpc, hp⟩)
        have hinsert : (insert p grp).card = grp.card + 1 :=
          Finset.card_insert_of_not_mem hp
        have hplen : ((neighbors size p).filter
            (fun q => decide (gridGet g q.1 q.2 = c ∧ q ∉ insert p grp))).length ≤ 4 :=
          le_trans (List.length_filter_le _ _) (neighbors_length_le p)
        have hrec := ih (insert p grp)
          (((neighbors size p).filter
            (fun q => decide (gridGet g q.1 q.2 = c ∧ q ∉ insert p grp))) ++ rest)
          (by
            intro a ha
            rcases Finset.mem_insert.mp ha with rfl | ha
            · exact h2 a (List.mem_cons_self _ _)
            · exact h1 a ha)
          (by
            intro q hq
            rcases List.mem_append.mp hq with hq | hq
            · have hq' := List.mem_filter.mp hq
              have hqn : q ∈ neighbors size p := hq'.1
              have hqc : gridGet g q.1 q.2 = c := (of_decide_eq_true hq'.2).1
              obtain ⟨hconnp, hcp, hcellp⟩ := h2 p (List.mem_cons_self _ _)
              refine ⟨Relation.ReflTransGen.tail hconnp
                ⟨mem_cells.mp hcellp, hqn, hcp, hqc⟩, hqc, ?_⟩
              exact mem_cells.mpr (inBounds_of_mem_neighbors hqn)
            · exact h2 q (List.mem_cons_of_mem _ hq))
          (by
            intro a ha q hq hcq
            rcases Finset.mem_insert.mp ha with rfl | ha
            · by_cases hqg : q ∈ insert a grp
              · exact Or.inl hqg
              · refine Or.inr (List.mem_append.mpr (Or.inl ?_))
                exact List.mem_filter.mpr ⟨hq, decide_eq_true ⟨hcq, hqg⟩⟩
            · rcases h3 a ha q hq hcq with h | h
              · exact Or.inl (Finset.mem_insert_of_mem h)
              · rcases List.mem_cons.mp h with rfl | h
                · exact Or.inl (Finset.mem_insert_self _ _)
                · exact Or.inr (List.mem_append.mpr (Or.inr h)))
          (by
            rw [hinsert]
            simp only [List.length_append, List.length_cons] at hf ⊢
            omega)
          (Finset.insert_subset hpc hsub)
        refine ⟨?_, ?_, hrec.2.2.1, hrec.2.2.2⟩
        · exact le_trans (Finset.subset_insert p grp) hrec.1
        · intro a ha
          rcases List.mem_cons.mp ha with rfl | ha
          · exact hrec.1 (Finset.mem_insert_self _ _)
          · exact hrec.2.1 a (List.mem_append.mpr (Or.inr ha))

/-- The flood fill of `_get_group` computes exactly the same-colour
connected component of its seed. -/
theorem mem_getGroup_iff {size : Nat} {g : Grid} {x y : Int} {c : Stone}
    (hin : inBounds size x y) (hc : gridGet g x y = c) (hne : c ≠ Stone.EMPTY)
    (p : Int × Int) :
    p ∈ getGroup size g x y ↔ Conn size g c (x, y) p := by
  have hspec := groupLoop_spec size g c (x, y) (groupFuel size) ∅ [(x, y)]
    (by simp)
    (by
      intro q hq
      simp only [List.mem_singleton] at hq
      subst hq
      exact ⟨Relation.ReflTransGen.refl, hc, mem_cells.mpr hin⟩)
    (by simp)
    (by rw [cells_card]; simp [groupFuel])
    (by simp)
  unfold getGroup
  rw [hc, if_neg hne]
  constructor
  · intro hp
    exact (hspec.2.2.1 p hp).1
  · intro hconn
    induction hconn with
    | refl => exact hspec.2.1 _ (List.mem_singleton_self _)
    | tail h' st ih => exact hspec.2.2.2 _ ih _ st.2.1 st.2.2.2

theorem getGroup_self {size : Nat} {g : Grid} {x y : Int}
    (hin : inBounds size x y) (hocc : gridGet g x y ≠ Stone.EMPTY) :
    (x, y) ∈ getGroup size g x y :=
  (mem_getGroup_iff hin rfl hocc _).mpr Relation.ReflTransGen.refl

theorem getGroup_color {size : Nat} {g : Grid} {x y : Int} {c : Stone}
    {p : Int × Int}
    (hin : inBounds size x y) (hc : gridGet g x y = c) (hne : c ≠ Stone.EMPTY)
    (hp : p ∈ getGroup size g x y) : gridGet g p.1 p.2 = c :=
  conn_color hc ((mem_getGroup_iff hin hc hne p).mp hp)

theorem getGroup_mem_cells {size : Nat} {g : Grid} {x y : Int} {c : Stone}
    {p : Int × Int}
    (hin : inBounds size x y) (hc : gridGet g x y = c) (hne : c ≠ Stone.EMPTY)
    (hp : p ∈ getGroup size g x y) : p ∈ cells size :=
  mem_cells.mpr (conn_inBounds hin ((mem_getGroup_iff hin hc hne p).mp hp))

/-- Membership in a group makes the two seed groups coincide: groups are
the connected components. -/
theorem getGroup_eq_of_mem {size : Nat} {g : Grid} {x y : Int} {c : Stone}
    {p : Int × Int}
    (hin : inBounds size x y) (hc : gridGet g x y = c) (hne : c ≠ Stone.EMPTY)
    (hp : p ∈ getGroup size g x y) :
    getGroup size g p.1 p.2 = getGroup size g x y := by
  have hconn := (mem_getGroup_iff hin hc hne p).mp hp
  have hpc : gridGet g p.1 p.2 = c := conn_color hc hconn
  have hpin : inBounds size p.1 p.2 := conn_inBounds hin hconn
  ext q
  rw [mem_getGroup_iff hpin hpc hne q, mem_getGroup_iff hin hc hne q]
  constructor
  · intro h
    exact conn_trans hconn h
  · intro h
    exact conn_trans (conn_symm hconn) h

/-! ### Capture resolution -/

/-- A still-present enemy stone sits in a `g1`-group untouched by the
removals recorded in `CaptureInv`: the group recomputed on the current grid
and its liberty status agree with those on `g1`. -/
theorem capture_component_eq {size : Nat} {g1 gc : Grid} {x y : Int}
    {e : Stone} (he : e ≠ Stone.EMPTY)
    (hinv : CaptureInv size g1 gc x y e) {n : Int × Int}
    (hn : inBounds size n.1 n.2) (hne : gridGet gc n.1 n.2 = e) :
    gridGet g1 n.1 n.2 = e ∧
    (∀ q ∈ getGroup size g1 n.1 n.2, gridGet gc q.1 q.2 = gridGet g1 q.1 q.2) ∧
    getGroup size gc n.1 n.2 = getGroup size g1 n.1 n.2 ∧
    (hasLiberties size gc (getGroup size g1 n.1 n.2) ↔
      hasLiberties size g1 (getGroup size g1 n.1 n.2)) := by
  have h1n : gridGet g1 n.1 n.2 = e := by
    by_contra h1n
    have hchanged : gridGet gc n.1 n.2 ≠ gridGet g1 n.1 n.2 := by
      rw [hne]; exact fun h => h1n h.symm
    have := (hinv n hchanged).2.1
    rw [hne] at this
    exact he this
  have huntouched :
      ∀ q ∈ getGroup size g1 n.1 n.2, gridGet gc q.1 q.2 = gridGet g1 q.1 q.2 := by
    intro q hq
    by_contra hchg
    obtain ⟨_, _, _, _, hfull, _⟩ := hinv q hchg
    have hcomp : getGroup size g1 q.1 q.2 = getGroup size g1 n.1 n.2 :=
      getGroup_eq_of_mem hn h1n he hq
    have hnE : gridGet gc n.1 n.2 = Stone.EMPTY := by
      apply hfull
      rw [hcomp]
      exact getGroup_self hn (by rw [h1n]; exact he)
    rw [hne] at hnE
    exact he hnE
  have hgrp : getGroup size gc n.1 n.2 = getGroup size g1 n.1 n.2 := by
    ext q
    rw [mem_getGroup_iff hn hne he q, mem_getGroup_iff hn h1n he q]
    constructor
    · intro hconn
      refine conn_congr hconn ?_
      intro m hm
      by_contra hchg
      have hmc : gridGet gc m.1 m.2 = e := conn_color hne hm
      have := (hinv m fun h => hchg h.symm).2.1
      rw [hmc] at this
      exact he this
    · intro hconn
      refine conn_congr hconn ?_
      intro m hm
      exact huntouched m ((mem_getGroup_iff hn h1n he m).mpr hm)
  have hlib : hasLiberties size gc (getGroup size g1 n.1 n.2) ↔
      hasLiberties size g1 (getGroup size g1 n.1 n.2) := by
    constructor
    · rintro ⟨m, hm, q, hqn, hqE⟩
      refine ⟨m, hm, q, hqn, ?_⟩
      by_contra hq1
      have hchg : gridGet gc q.1 q.2 ≠ gridGet g1 q.1 q.2 := by
        rw [hqE]; exact fun h => hq1 h.symm
      have hq1e := (hinv q hchg).1
      have hmc : gridGet g1 m.1 m.2 = e := getGroup_color hn h1n he hm
      have hmin : inBounds size m.1 m.2 :=
        mem_cells.mp (getGroup_mem_cells hn h1n he hm)
      have hconnq : Conn size g1 e (n.1, n.2) q :=
        Relation.ReflTransGen.tail ((mem_getGroup_iff hn h1n he m).mp hm)
          ⟨hmin, hqn, hmc, hq1e⟩
      have hqmem : q ∈ getGroup size g1 n.1 n.2 :=
        (mem_getGroup_iff hn h1n he q).mpr hconnq
      have := huntouched q hqmem
      rw [hqE, hq1e] at this
      exact he this.symm
    · rintro ⟨m, hm, q, hqn, hqE⟩
      refine ⟨m, hm, q, hqn, ?_⟩
      by_cases hchg : gridGet gc q.1 q.2 = gridGet g1 q.1 q.2
      · rw [hchg]; exact hqE
      · exact (hinv q hchg).2.1
  exact ⟨h1n, huntouched, hgrp, hlib⟩

theorem gridGet_removeGroup (g : Grid) (grp : Finset (Int × Int))
    (p : Int × Int) :
    gridGet (removeGroupG g grp).1 p.1 p.2 =
      if p ∈ grp then Stone.EMPTY else gridGet g p.1 p.2 := rfl

theorem gridGet_removeGroupAt (g : Grid) (grp : Finset (Int × Int))
    (a b : Int) :
    gridGet (removeGroupG g grp).1 a b =
      if (a, b) ∈ grp then Stone.EMPTY else gridGet g a b := rfl

theorem gridGet_gridSet (g : Grid) (x y : Int) (s : Stone) (a b : Int) :
    gridGet (gridSet g x y s) a b =
      if a = x ∧ b = y then s else gridGet g a b := rfl

theorem removeGroupG_snd (g : Grid) (grp : Finset (Int × Int)) :
    (removeGroupG g grp).2 = grp.card := rfl

theorem captureStep_remove {size : Nat} {c : Stone} {acc : Grid × Nat}
    {n : Int × Int} (h1 : gridGet acc.1 n.1 n.2 = c.opposite)
    (h2 : ¬ hasLiberties size acc.1 (getGroup size acc.1 n.1 n.2)) :
    captureStep size c acc n =
      ((removeGroupG acc.1 (getGroup size acc.1 n.1 n.2)).1,
        acc.2 + (getGroup size acc.1 n.1 n.2).card) := by
  simp only [captureStep, h1, if_true, if_pos h2, removeGroupG_snd]

theorem captureStep_skip_lib {size : Nat} {c : Stone} {acc : Grid × Nat}
    {n : Int × Int} (h1 : gridGet acc.1 n.1 n.2 = c.opposite)
    (h2 : hasLiberties size acc.1 (getGroup size acc.1 n.1 n.2)) :
    captureStep size c acc n = acc := by
  simp only [captureStep, h1, if_true, if_neg (not_not_intro h2)]

theorem captureStep_skip_col {size : Nat} {c : Stone} {acc : Grid × Nat}
    {n : Int × Int} (h1 : gridGet acc.1 n.1 n.2 ≠ c.opposite) :
    captureStep size c acc n = acc := by
  simp only [captureStep, if_neg h1]

theorem mem_removedSet {size : Nat} {g1 gc : Grid} {e : Stone}
    {p : Int × Int} :
    p ∈ removedSet size g1 gc e ↔
      p ∈ cells size ∧ gridGet g1 p.1 p.2 = e ∧
        gridGet gc p.1 p.2 = Stone.EMPTY := by
  simp [removedSet, Finset.mem_filter, and_assoc]

/-- Invariant preservation and exact counting along the `_capture_stones`
loop, plus monotonicity of emptiness and the removal guarantee for every
libertyless enemy group seeded in the processed neighbour list. -/
theorem captureFold_spec {size : Nat} {g1 : Grid} {x y : Int} {c : Stone}
    (he : c.opposite ≠ Stone.EMPTY) :
    ∀ (l : List (Int × Int)), (∀ n ∈ l, n ∈ neighbors size (x, y)) →
    ∀ (gc : Grid) (k : Nat),
      CaptureInv size g1 gc x y c.opposite →
      k = (removedSet size g1 gc c.opposite).card →
      CaptureInv size g1 (l.foldl (captureStep size c) (gc, k)).1 x y c.opposite ∧
      (l.foldl (captureStep size c) (gc, k)).2 =
        (removedSet size g1 (l.foldl (captureStep size c) (gc, k)).1 c.opposite).card ∧
      (∀ p : Int × Int, gridGet gc p.1 p.2 = Stone.EMPTY →
        gridGet (l.foldl (captureStep size c) (gc, k)).1 p.1 p.2 = Stone.EMPTY) ∧
      (∀ n ∈ l, gridGet g1 n.1 n.2 = c.opposite →
        ¬ hasLiberties size g1 (getGroup size g1 n.1 n.2) →
        ∀ q ∈ getGroup size g1 n.1 n.2,
          gridGet (l.foldl (captureStep size c) (gc, k)).1 q.1 q.2 = Stone.EMPTY) := by
  intro l
  induction l with
  | nil =>
    intro _ gc k hinv hk
    exact ⟨hinv, hk, fun p h => h, by simp⟩
  | cons n l ih =>
    intro hl gc k hinv hk
    have hnmem : n ∈ neighbors size (x, y) := hl n (List.mem_cons_self _ _)
    have hnin : inBounds size n.1 n.2 := inBounds_of_mem_neighbors hnmem
    rw [List.foldl_cons]
    by_cases hcol : gridGet gc n.1 n.2 = c.opposite
    · obtain ⟨h1n, huntouched, hgrp, hlib⟩ :=
        capture_component_eq he hinv hnin hcol
      by_cases hlibs : hasLiberties size gc (getGroup size gc n.1 n.2)
      · -- group still has liberties: no removal this iteration
        have hstep : captureStep size c (gc, k) n = (gc, k) :=
          captureStep_skip_lib hcol hlibs
        rw [hstep]
        obtain ⟨ha, hb, hc', hd⟩ := ih (fun m hm => hl m (List.mem_cons_of_mem _ hm))
          gc k hinv hk
        refine ⟨ha, hb, hc', ?_⟩
        intro m hm hme hmnolib
        rcases List.mem_cons.mp hm with rfl | hm
        · exfalso
          rw [hgrp] at hlibs
          exact hmnolib (hlib.mp hlibs)
        · exact hd m hm hme hmnolib
      · -- libertyless enemy group: removed now
        set G := getGroup size g1 n.1 n.2 with hGdef
        have hstep : captureStep size c (gc, k) n =
            ((removeGroupG gc G).1, k + G.card) := by
          have h := @captureStep_remove size c (gc, k) n hcol hlibs
          rw [show getGroup size (gc, k).1 n.1 n.2 = G from hgrp] at h
          exact h
        rw [hstep]
        have hGcolor : ∀ q ∈ G, gridGet g1 q.1 q.2 = c.opposite :=
          fun q hq => getGroup_color hnin h1n he hq
        have hGcells : ∀ q ∈ G, q ∈ cells size :=
          fun q hq => getGroup_mem_cells hnin h1n he hq
        have hGgc : ∀ q ∈ G, gridGet gc q.1 q.2 = c.opposite := by
          intro q hq
          rw [huntouched q hq]
          exact hGcolor q hq
        have hnolib1 : ¬ hasLiberties size g1 G := by
          rw [hgrp] at hlibs
          exact fun h => hlibs (hlib.mpr h)
        have hg' : ∀ p : Int × Int, gridGet (removeGroupG gc G).1 p.1 p.2 =
            if p ∈ G then Stone.EMPTY else gridGet gc p.1 p.2 :=
          fun p => gridGet_removeGroup gc G p
        have hinv' : CaptureInv size g1 (removeGroupG gc G).1 x y c.opposite := by
          intro p hchg
          rw [hg'] at hchg
          by_cases hpG : p ∈ G
          · rw [if_pos hpG] at hchg
            have hcompeq : getGroup size g1 p.1 p.2 = G :=
              getGroup_eq_of_mem hnin h1n he hpG
            refine ⟨hGcolor p hpG, by rw [hg', if_pos hpG], hGcells p hpG, ?_, ?_, ?_⟩
            · rw [hcompeq]; exact hnolib1
            · intro q hq
              rw [hcompeq] at hq
              rw [hg', if_pos hq]
            · exact ⟨n, hnmem, by
                rw [hcompeq]
                exact getGroup_self hnin (by rw [h1n]; exact he)⟩
          · rw [if_neg hpG] at hchg
            obtain ⟨ha, hb, hc', hd, hfull, hseed⟩ := hinv p hchg
            refine ⟨ha, by rw [hg', if_neg hpG]; exact hb, hc', hd, ?_, hseed⟩
            intro q hq
            rw [hg']
            by_cases hqG : q ∈ G
            · rw [if_pos hqG]
            · rw [if_neg hqG]; exact hfull q hq
        have hset : removedSet size g1 (removeGroupG gc G).1 c.opposite =
            removedSet size g1 gc c.opposite ∪ G := by
          ext p
          rw [Finset.mem_union, mem_removedSet, mem_removedSet, hg']
          constructor
          · rintro ⟨hp1, hp2, hp3⟩
            by_cases hpG : p ∈ G
            · exact Or.inr hpG
            · rw [if_neg hpG] at hp3
              exact Or.inl ⟨hp1, hp2, hp3⟩
          · rintro (⟨hp1, hp2, hp3⟩ | hpG)
            · refine ⟨hp1, hp2, ?_⟩
              by_cases hpG : p ∈ G
              · rw [if_pos hpG]
              · rw [if_neg hpG]; exact hp3
            · exact ⟨hGcells p hpG, hGcolor p hpG, by rw [if_pos hpG]⟩
        have hdisj : Disjoint (removedSet size g1 gc c.opposite) G := by
          rw [Finset.disjoint_right]
          intro q hqG hqr
          have := (mem_removedSet.mp hqr).2.2
          rw [hGgc q hqG] at this
          exact he this
        have hcount : k + G.card =
            (removedSet size g1 (removeGroupG gc G).1 c.opposite).card := by
          rw [hset, Finset.card_union_of_disjoint hdisj, hk]
        obtain ⟨ha, hb, hc', hd⟩ := ih (fun m hm => hl m (List.mem_cons_of_mem _ hm))
          (removeGroupG gc G).1 (k + G.card) hinv' hcount
        refine ⟨ha, hb, ?_, ?_⟩
        · intro p hp
          apply hc'
          rw [hg']
          by_cases hpG : p ∈ G
          · rw [if_pos hpG]
          · rw [if_neg hpG]; exact hp
        · intro m hm hme hmnolib
          rcases List.mem_cons.mp hm with rfl | hm
          · intro q hq
            apply hc'
            rw [hg', if_pos hq]
          · exact hd m hm hme hmnolib
    · -- neighbour no longer enemy-coloured: skip
      have hstep : captureStep size c (gc, k) n = (gc, k) :=
        captureStep_skip_col hcol
      rw [hstep]
      obtain ⟨ha, hb, hc', hd⟩ := ih (fun m hm => hl m (List.mem_cons_of_mem _ hm))
        gc k hinv hk
      refine ⟨ha, hb, hc', ?_⟩
      intro m hm hme hmnolib
      rcases List.mem_cons.mp hm with rfl | hm
      · -- head already removed by an earlier iteration
        have hchg : gridGet gc m.1 m.2 ≠ gridGet g1 m.1 m.2 := by
          rw [hme]; exact hcol
        obtain ⟨_, _, _, _, hfull, _⟩ := hinv m hchg
        intro q hq
        exact hc' q (hfull q hq)
      · exact hd m hm hme hmnolib

theorem opposite_ne_self {c : Stone} (hc : c ≠ Stone.EMPTY) : c.opposite ≠ c := by
  cases c <;> simp [Stone.opposite] at *

theorem opposite_ne_empty {c : Stone} (hc : c ≠ Stone.EMPTY) :
    c.opposite ≠ Stone.EMPTY := by
  cases c <;> simp [Stone.opposite] at *

/-- Specification of `_capture_stones` run on the post-placement grid:
the capture invariant holds between input and output, the returned count is
exactly the number of emptied positions, and every libertyless enemy group
adjacent to (x, y) is entirely removed. -/
theorem captureStonesG_spec {size : Nat} {g1 : Grid} {x y : Int} {c : Stone}
    (he : c.opposite ≠ Stone.EMPTY) :
    CaptureInv size g1 (captureStonesG size g1 x y c).1 x y c.opposite ∧
    (captureStonesG size g1 x y c).2 =
      (removedSet size g1 (captureStonesG size g1 x y c).1 c.opposite).card ∧
    (∀ n ∈ neighbors size (x, y), gridGet g1 n.1 n.2 = c.opposite →
      ¬ hasLiberties size g1 (getGroup size g1 n.1 n.2) →
      ∀ q ∈ getGroup size g1 n.1 n.2,
        gridGet (captureStonesG size g1 x y c).1 q.1 q.2 = Stone.EMPTY) := by
  have h0 : (0 : Nat) = (removedSet size g1 g1 c.opposite).card := by
    rw [show removedSet size g1 g1 c.opposite = ∅ from ?_]
    · simp
    · ext p
      rw [mem_removedSet]
      simp only [Finset.not_mem_empty, iff_false]
      rintro ⟨_, hpe, hpE⟩
      rw [hpe] at hpE
      exact he hpE
  obtain ⟨ha, hb, _, hd⟩ := captureFold_spec he (neighbors size (x, y))
    (fun n hn => hn) g1 0 (fun p hp => absurd rfl hp) h0
  exact ⟨ha, hb, hd⟩

/-- A zero capture count means capture resolution changed nothing. -/
theorem captureStonesG_zero {size : Nat} {g1 : Grid} {x y : Int} {c : Stone}
    (he : c.opposite ≠ Stone.EMPTY)
    (hz : (captureStonesG size g1 x y c).2 = 0) :
    (captureStonesG size g1 x y c).1 = g1 := by
  obtain ⟨hinv, hcount, _⟩ := @captureStonesG_spec size g1 x y c he
  rw [hz] at hcount
  have hempty : removedSet size g1 (captureStonesG size g1 x y c).1 c.opposite = ∅ :=
    Finset.card_eq_zero.mp hcount.symm
  funext a b
  by_contra hne
  obtain ⟨hpe, hpE, hpc, _, _, _⟩ := hinv (a, b) hne
  have : (a, b) ∈ removedSet size g1 (captureStonesG size g1 x y c).1 c.opposite :=
    mem_removedSet.mpr ⟨hpc, hpe, hpE⟩
  rw [hempty] at this
  exact absurd this (Finset.not_mem_empty _)

/-- A non-zero capture count puts an emptied, previously enemy-coloured
position among the neighbours of the played point. -/
theorem captureStonesG_seed {size : Nat} {g1 : Grid} {x y : Int} {c : Stone}
    (he : c.opposite ≠ Stone.EMPTY)
    (hnz : (captureStonesG size g1 x y c).2 ≠ 0) :
    ∃ n ∈ neighbors size (x, y), gridGet g1 n.1 n.2 = c.opposite ∧
      gridGet (captureStonesG size g1 x y c).1 n.1 n.2 = Stone.EMPTY := by
  obtain ⟨hinv, hcount, _⟩ := @captureStonesG_spec size g1 x y c he
  rw [hcount] at hnz
  obtain ⟨p, hp⟩ := Finset.card_ne_zero.mp hnz
  obtain ⟨hpcell, hpe, hpE⟩ := mem_removedSet.mp hp
  have hchg : gridGet (captureStonesG size g1 x y c).1 p.1 p.2 ≠
      gridGet g1 p.1 p.2 := by
    rw [hpE, hpe]; exact fun h => he h.symm
  obtain ⟨_, _, _, _, hfull, n, hnmem, hnG⟩ := hinv p hchg
  refine ⟨n, hnmem, ?_, hfull n hnG⟩
  exact getGroup_color (mem_cells.mp hpcell) hpe he hnG

/-! ### Legality and placement -/

/-- The legality check restores the state it speculated on: the returned
board is the argument itself, counters, history, and ko point included. -/
theorem isValidMoveSt_snd (b : GoBoard) (x y : Int) (c : Stone) :
    (isValidMoveSt b x y c).2 = b := by
  unfold isValidMoveSt
  split_ifs <;> rfl

theorem isValidMove_iff (b : GoBoard) (x y : Int) (c : Stone) :
    isValidMove b x y c = true ↔
      inBounds b.size x y ∧ b.get x y = Stone.EMPTY ∧
        b.ko_point ≠ some (x, y) ∧
        (hasLiberties b.size (captureStonesG b.size (gridSet b.grid x y c) x y c).1
            (getGroup b.size (captureStonesG b.size (gridSet b.grid x y c) x y c).1 x y) ∨
          (captureStonesG b.size (gridSet b.grid x y c) x y c).2 ≠ 0) := by
  unfold isValidMove isValidMoveSt
  by_cases h1 : inBounds b.size x y
  · rw [if_neg (not_not_intro h1)]
    by_cases h2 : b.get x y = Stone.EMPTY
    · rw [if_neg (not_not_intro h2)]
      by_cases h3 : b.ko_point = some (x, y)
      · rw [if_pos h3]
        refine iff_of_false (by simp) ?_
        rintro ⟨_, _, hb, _⟩
        exact hb h3
      · rw [if_neg h3]
        simp only [Bool.not_eq_true', decide_eq_false_iff_not, not_and_or, not_not]
        simp [h1, h2, h3]
    · rw [if_pos h2]
      refine iff_of_false (by simp) ?_
      rintro ⟨_, hb, _⟩
      exact h2 hb
  · rw [if_pos h1]
    refine iff_of_false (by simp) ?_
    rintro ⟨hb, _⟩
    exact h1 hb

theorem placeStone_fail {b : GoBoard} {x y : Int} {c : Stone}
    (h : isValidMove b x y c = false) : placeStone b x y c = (false, b) := by
  unfold placeStone
  rw [if_pos h]

/-- The explicit shape of a successful placement. -/
theorem placeStone_succ {b : GoBoard} {x y : Int} {c : Stone}
    (h : isValidMove b x y c = true) :
    placeStone b x y c =
      (true,
        { b with
            grid := (captureStonesG b.size (gridSet b.grid x y c) x y c).1
          , captured_black :=
              if c = Stone.BLACK then b.captured_black
              else b.captured_black + (captureStonesG b.size (gridSet b.grid x y c) x y c).2
          , captured_white :=
              if c = Stone.BLACK then
                b.captured_white + (captureStonesG b.size (gridSet b.grid x y c) x y c).2
              else b.captured_white
          , ko_point :=
              if (captureStonesG b.size (gridSet b.grid x y c) x y c).2 = 1 then
                findKoG b.size (captureStonesG b.size (gridSet b.grid x y c) x y c).1
                  x y c (neighbors b.size (x, y))
              else none
          , move_history := b.move_history ++ [⟨x, y, c⟩] }) := by
  unfold placeStone
  rw [if_neg (by simp [h])]

theorem placeStone_fst_iff (b : GoBoard) (x y : Int) (c : Stone) :
    (placeStone b x y c).1 = true ↔ isValidMove b x y c = true := by
  cases hv : isValidMove b x y c
  · rw [placeStone_fail hv]
  · rw [placeStone_succ hv]

/-! ### The ko-candidate scan -/

theorem findKoG_some {size : Nat} {g : Grid} {x y : Int} {c : Stone} :
    ∀ (l : List (Int × Int)) (q : Int × Int),
      findKoG size g x y c l = some q →
      q ∈ l ∧ gridGet g q.1 q.2 = Stone.EMPTY ∧
      (getGroup size (gridSet g q.1 q.2 c.opposite) q.1 q.2).card = 1 ∧
      ¬ hasLiberties size (gridSet g q.1 q.2 c.opposite)
          (getGroup size (gridSet g q.1 q.2 c.opposite) x y) := by
  intro l
  induction l with
  | nil => intro q hq; simp [findKoG] at hq
  | cons n rest ih =>
    intro q hq
    unfold findKoG at hq
    by_cases hE : gridGet g n.1 n.2 = Stone.EMPTY
    · rw [if_pos hE] at hq
      by_cases hcard :
          (getGroup size (gridSet g n.1 n.2 c.opposite) n.1 n.2).card = 1
      · rw [if_pos hcard] at hq
        by_cases hlib : hasLiberties size (gridSet g n.1 n.2 c.opposite)
            (getGroup size (gridSet g n.1 n.2 c.opposite) x y)
        · rw [if_neg (not_not_intro hlib)] at hq
          exact absurd hq (Option.some_ne_none q).symm.elim
        · rw [if_pos hlib] at hq
          obtain rfl := Option.some_injective _ hq.symm
          exact ⟨List.mem_cons_self _ _, hE, hcard, hlib⟩
      · rw [if_neg hcard] at hq
        obtain ⟨hm, h2, h3, h4⟩ := ih q hq
        exact ⟨List.mem_cons_of_mem _ hm, h2, h3, h4⟩
    · rw [if_neg hE] at hq
      obtain ⟨hm, h2, h3, h4⟩ := ih q hq
      exact ⟨List.mem_cons_of_mem _ hm, h2, h3, h4⟩

theorem findKoG_reaches {size : Nat} {g : Grid} {x y : Int} {c : Stone}
    {p : Int × Int}
    (hpE : gridGet g p.1 p.2 = Stone.EMPTY)
    (hcard : (getGroup size (gridSet g p.1 p.2 c.opposite) p.1 p.2).card = 1)
    (hlib : ¬ hasLiberties size (gridSet g p.1 p.2 c.opposite)
        (getGroup size (gridSet g p.1 p.2 c.opposite) x y)) :
    ∀ (l : List (Int × Int)), p ∈ l →
      (∀ q ∈ l, gridGet g q.1 q.2 = Stone.EMPTY → q = p) →
      findKoG size g x y c l = some p := by
  intro l
  induction l with
  | nil => intro hp; simp at hp
  | cons n rest ih =>
    intro hp huniq
    unfold findKoG
    by_cases hE : gridGet g n.1 n.2 = Stone.EMPTY
    · have hnp : n = p := huniq n (List.mem_cons_self _ _) hE
      subst hnp
      rw [if_pos hE, if_pos hcard, if_pos hlib]
    · rw [if_neg hE]
      have hp' : p ∈ rest := by
        rcases List.mem_cons.mp hp with rfl | hp'
        · exact absurd hpE hE
        · exact hp'
      exact ih hp' (fun q hq => huniq q (List.mem_cons_of_mem _ hq))

/-- A stone whose orthogonal neighbours all hold a different colour forms a
group of exactly itself. -/
theorem getGroup_singleton {size : Nat} {g : Grid} {x y : Int} {c : Stone}
    (hin : inBounds size x y) (hc : gridGet g x y = c) (hne : c ≠ Stone.EMPTY)
    (hnb : ∀ q ∈ neighbors size (x, y), gridGet g q.1 q.2 ≠ c) :
    getGroup size g x y = {(x, y)} := by
  ext p
  rw [mem_getGroup_iff hin hc hne, Finset.mem_singleton]
  constructor
  · intro hconn
    rcases Relation.ReflTransGen.cases_head hconn with h | ⟨q, hq, _⟩
    · exact h.symm
    · exact absurd hq.2.2.2 (hnb q hq.2.1)
  · rintro rfl
    exact Relation.ReflTransGen.refl

/-- A speculative placement whose own group ends up libertyless while
capturing nothing is rejected (the suicide rule). -/
theorem suicide_invalid {b : GoBoard} {x y : Int} {c : Stone}
    (hnl : ¬ hasLiberties b.size (captureStonesG b.size (gridSet b.grid x y c) x y c).1
        (getGroup b.size (captureStonesG b.size (gridSet b.grid x y c) x y c).1 x y))
    (hz : (captureStonesG b.size (gridSet b.grid x y c) x y c).2 = 0) :
    isValidMove b x y c = false := by
  cases hv : isValidMove b x y c
  · rfl
  · rcases ((isValidMove_iff b x y c).mp hv).2.2.2 with hlib | hnz
    · exact absurd hlib hnl
    · exact absurd hz hnz

/-- A set ko point forbids the move there to either colour. -/
theorem ko_blocks {b : GoBoard} {x y : Int} (c : Stone)
    (hk : b.ko_point = some (x, y)) : isValidMove b x y c = false := by
  cases hv : isValidMove b x y c
  · rfl
  · exact absurd hk ((isValidMove_iff b x y c).mp hv).2.2.1

/-! ### Claim theorems -/

/-- C6: for every position and colour, `is_valid_move` leaves the grid,
both capture counters, the move history, and the ko point exactly as they
were before the call (the speculative placement and captures are reverted
unconditionally), and `place_stone` on a move it deems illegal returns
failure and leaves all of that state unchanged. -/
theorem claim_C6 :
    (∀ (b : GoBoard) (x y : Int) (c : Stone), (isValidMoveSt b x y c).2 = b) ∧
    (∀ (b : GoBoard) (x y : Int) (c : Stone),
      isValidMove b x y c = false → placeStone b x y c = (false, b)) :=
  ⟨isValidMoveSt_snd, fun _ _ _ _ h => placeStone_fail h⟩

/-- Witness for C6: attempting to play on the occupied point (2, 2) is
rejected and returns the board unchanged. -/
theorem claim_C6_witness :
    isValidMove boardOneStone 2 2 Stone.WHITE = false ∧
    (isValidMoveSt boardOneStone 2 2 Stone.WHITE).2 = boardOneStone ∧
    placeStone boardOneStone 2 2 Stone.WHITE = (false, boardOneStone) :=
  ⟨by decide, claim_C6.1 boardOneStone 2 2 Stone.WHITE,
    claim_C6.2 boardOneStone 2 2 Stone.WHITE (by decide)⟩

/-- C10 (implicit): when a ko point is set, `is_valid_move` rejects a move
at that intersection for every colour, not only for the colour that would
otherwise recapture. -/
theorem claim_C10 :
    ∀ (b : GoBoard) (x y : Int) (c : Stone),
      b.ko_point = some (x, y) → isValidMove b x y c = false :=
  fun _ _ _ c hk => ko_blocks c hk

/-- Witness for C10: with a ko point at (1, 1), both colours are barred
from playing there. -/
theorem claim_C10_witness :
    boardWithKo.ko_point = some (1, 1) ∧
    isValidMove boardWithKo 1 1 Stone.BLACK = false ∧
    isValidMove boardWithKo 1 1 Stone.WHITE = false :=
  ⟨rfl, claim_C10 boardWithKo 1 1 Stone.BLACK rfl,
    claim_C10 boardWithKo 1 1 Stone.WHITE rfl⟩

/-- C7 evaluation at the failing input: contrary to the claim (and to the
spec's stated failure semantics), out-of-bounds coordinates are NOT
signalled as an exception by `is_valid_move`/`place_stone` of board.py —
they produce the same plain rule-outcome failure value `False` as any
rule violation, and neither method carries a reason string (the return
type is a bare bool, which the caller `cli.cmd_move` cannot even unpack
as the (success, reason) pair it expects). -/
theorem claim_C7_eval :
    isValidMove (emptyBoard 9) (-1) 0 Stone.BLACK = false ∧
    placeStone (emptyBoard 9) (-1) 0 Stone.BLACK = (false, emptyBoard 9) := by
  refine ⟨by decide, placeStone_fail (by decide)⟩

/-- C8 evaluation at the failing inputs: `Move.to_human_coords` maps column
index 8 to the letter I (the claim and the board's own column labels say
J), `from_human_coords` maps J to column 9 (the claim says 8), and the
letter I is accepted (the claim says it is rejected with an error). -/
theorem claim_C8_eval :
    toHumanCoords ⟨8, 0, Stone.BLACK⟩ = "I1" ∧
    fromHumanCoords "J1" Stone.BLACK = some ⟨9, 0, Stone.BLACK⟩ ∧
    fromHumanCoords "I1" Stone.BLACK = some ⟨8, 0, Stone.BLACK⟩ := by
  refine ⟨?_, ?_, ?_⟩ <;> decide

/-- C2: a move whose speculative placement captures zero enemy stones and
leaves its own group with zero liberties is rejected as suicide by
`is_valid_move` (and `place_stone` fails); in particular a single stone
played onto an empty, non-ko point all of whose orthogonal neighbours hold
the opposite colour, capturing nothing, is illegal. -/
theorem claim_C2 :
    (∀ (b : GoBoard) (x y : Int) (c : Stone),
      inBounds b.size x y → b.get x y = Stone.EMPTY →
      b.ko_point ≠ some (x, y) →
      (captureStonesG b.size (gridSet b.grid x y c) x y c).2 = 0 →
      ¬ hasLiberties b.size (captureStonesG b.size (gridSet b.grid x y c) x y c).1
          (getGroup b.size (captureStonesG b.size (gridSet b.grid x y c) x y c).1 x y) →
      isValidMove b x y c = false ∧ (placeStone b x y c).1 = false) ∧
    (∀ (b : GoBoard) (x y : Int) (c : Stone),
      c ≠ Stone.EMPTY → inBounds b.size x y → b.get x y = Stone.EMPTY →
      (∀ q ∈ neighbors b.size (x, y), b.get q.1 q.2 = c.opposite) →
      (captureStonesG b.size (gridSet b.grid x y c) x y c).2 = 0 →
      isValidMove b x y c = false ∧ (placeStone b x y c).1 = false) := by
  constructor
  · intro b x y c _ _ _ hz hnl
    have hv := suicide_invalid hnl hz
    exact ⟨hv, by rw [placeStone_fail hv]⟩
  · intro b x y c hc hin hE hnb hz
    have hne := opposite_ne_empty hc
    have hcap1 : (captureStonesG b.size (gridSet b.grid x y c) x y c).1 =
        gridSet b.grid x y c := captureStonesG_zero hne hz
    have hg1xy : gridGet (gridSet b.grid x y c) x y = c := by
      rw [gridGet_gridSet, if_pos ⟨rfl, rfl⟩]
    have hqnes : ∀ q ∈ neighbors b.size (x, y), q ≠ (x, y) := by
      intro q hq
      have := mem_neighbors_iff.mp hq
      intro hqe
      rw [hqe] at this
      simp only at this
      omega
    have hnb1 : ∀ q ∈ neighbors b.size (x, y),
        gridGet (gridSet b.grid x y c) q.1 q.2 = c.opposite := by
      intro q hq
      rw [gridGet_gridSet, if_neg]
      · exact hnb q hq
      · rintro ⟨ha, hb'⟩
        exact hqnes q hq (Prod.ext ha hb')
    have hsing : getGroup b.size (gridSet b.grid x y c) x y = {(x, y)} := by
      refine getGroup_singleton hin hg1xy hc ?_
      intro q hq
      rw [hnb1 q hq]
      exact opposite_ne_self hc
    have hnl : ¬ hasLiberties b.size (gridSet b.grid x y c)
        (getGroup b.size (gridSet b.grid x y c) x y) := by
      rw [hsing]
      rintro ⟨p, hp, q, hqn, hqE⟩
      rw [Finset.mem_singleton] at hp
      subst hp
      rw [hnb1 q hqn] at hqE
      exact hne hqE
    have hv : isValidMove b x y c = false := by
      apply suicide_invalid _ hz
      rw [hcap1]
      exact hnl
    exact ⟨hv, by rw [placeStone_fail hv]⟩

/-- Witness for C2: black at the corner (0, 0) of `boardCorner` has both
in-bounds neighbours white, captures nothing, and is rejected. -/
theorem claim_C2_witness :
    (Stone.BLACK ≠ Stone.EMPTY ∧ inBounds boardCorner.size 0 0 ∧
      boardCorner.get 0 0 = Stone.EMPTY ∧
      (∀ q ∈ neighbors boardCorner.size ((0 : Int), (0 : Int)),
        boardCorner.get q.1 q.2 = Stone.BLACK.opposite) ∧
      (captureStonesG boardCorner.size
        (gridSet boardCorner.grid 0 0 Stone.BLACK) 0 0 Stone.BLACK).2 = 0) ∧
    isValidMove boardCorner 0 0 Stone.BLACK = false ∧
    (placeStone boardCorner 0 0 Stone.BLACK).1 = false :=
  ⟨⟨by decide, by decide, by decide, by decide, by decide⟩,
    claim_C2.2 boardCorner 0 0 Stone.BLACK (by decide) (by decide) (by decide)
      (by decide) (by decide)⟩

/-- C1: when a successful `place_stone` leaves an adjacent opposite-colour
group with zero liberties, every stone of that entire group is removed
(those intersections become empty); conversely every changed intersection
belonged to such a libertyless adjacent enemy group; `_capture_stones`
returns exactly the number of stones removed in the call; and the capture
counter indexed by the removed colour (captured_white for a black move,
captured_black for a white move) is incremented by exactly that count,
the other counter staying put. -/
theorem claim_C1 :
    ∀ (b : GoBoard) (x y : Int) (c : Stone),
      c ≠ Stone.EMPTY → (placeStone b x y c).1 = true →
      (∀ n ∈ neighbors b.size (x, y),
          gridGet (gridSet b.grid x y c) n.1 n.2 = c.opposite →
          ¬ hasLiberties b.size (gridSet b.grid x y c)
              (getGroup b.size (gridSet b.grid x y c) n.1 n.2) →
          ∀ q ∈ getGroup b.size (gridSet b.grid x y c) n.1 n.2,
            (placeStone b x y c).2.get q.1 q.2 = Stone.EMPTY) ∧
      (∀ q : Int × Int,
          (placeStone b x y c).2.get q.1 q.2 ≠
            gridGet (gridSet b.grid x y c) q.1 q.2 →
          gridGet (gridSet b.grid x y c) q.1 q.2 = c.opposite ∧
          (placeStone b x y c).2.get q.1 q.2 = Stone.EMPTY ∧
          ¬ hasLiberties b.size (gridSet b.grid x y c)
              (getGroup b.size (gridSet b.grid x y c) q.1 q.2) ∧
          (∃ n ∈ neighbors b.size (x, y),
            n ∈ getGroup b.size (gridSet b.grid x y c) q.1 q.2)) ∧
      (captureStonesG b.size (gridSet b.grid x y c) x y c).2 =
        (removedSet b.size (gridSet b.grid x y c)
          (captureStonesG b.size (gridSet b.grid x y c) x y c).1 c.opposite).card ∧
      (if c = Stone.BLACK then
        (placeStone b x y c).2.captured_white =
            b.captured_white + (captureStonesG b.size (gridSet b.grid x y c) x y c).2 ∧
          (placeStone b x y c).2.captured_black = b.captured_black
       else
        (placeStone b x y c).2.captured_black =
            b.captured_black + (captureStonesG b.size (gridSet b.grid x y c) x y c).2 ∧
          (placeStone b x y c).2.captured_white = b.captured_white) := by
  intro b x y c hc hsucc
  have hv : isValidMove b x y c = true := (placeStone_fst_iff b x y c).mp hsucc
  have he := opposite_ne_empty hc
  obtain ⟨hinv, hcount, hcomplete⟩ :=
    @captureStonesG_spec b.size (gridSet b.grid x y c) x y c he
  rw [placeStone_succ hv]
  refine ⟨?_, ?_, hcount, ?_⟩
  · intro n hn hne hnl q hq
    exact hcomplete n hn hne hnl q hq
  · intro q hchg
    obtain ⟨h1, h2, _, h4, _, h6⟩ := hinv q hchg
    exact ⟨h1, h2, h4, h6⟩
  · by_cases hb : c = Stone.BLACK
    · simp [if_pos hb]
    · simp [if_neg hb]

/-- Witness for C1: on `boardPreCapture`, black at (0, 1) captures the
lone white stone at (0, 0); white's captured counter rises by the capture
count and the captured intersection is empty afterwards. -/
theorem claim_C1_witness :
    (placeStone boardPreCapture 0 1 Stone.BLACK).1 = true ∧
    (captureStonesG boardPreCapture.size
      (gridSet boardPreCapture.grid 0 1 Stone.BLACK) 0 1 Stone.BLACK).2 = 1 ∧
    (placeStone boardPreCapture 0 1 Stone.BLACK).2.get 0 0 = Stone.EMPTY ∧
    (placeStone boardPreCapture 0 1 Stone.BLACK).2.captured_white =
      boardPreCapture.captured_white +
        (captureStonesG boardPreCapture.size
          (gridSet boardPreCapture.grid 0 1 Stone.BLACK) 0 1 Stone.BLACK).2 := by
  have h := claim_C1 boardPreCapture 0 1 Stone.BLACK (by decide) (by decide)
  have hb := h.2.2.2
  rw [if_pos rfl] at hb
  exact ⟨by decide, by decide, by decide, hb.1⟩

theorem mem_neighbors_ne {size : Nat} {p q : Int × Int}
    (h : q ∈ neighbors size p) : q ≠ p := by
  have hm := mem_neighbors_iff.mp h
  intro hqe
  rw [hqe] at hm
  rcases hm.2 with ⟨_, h2 | h2⟩ | ⟨_, h2 | h2⟩ <;> omega

/-- Capture resolution never erases the freshly played stone. -/
theorem capture_keeps_played {size : Nat} {g : Grid} {x y : Int} {c : Stone}
    (hc : c ≠ Stone.EMPTY) :
    gridGet (captureStonesG size (gridSet g x y c) x y c).1 x y = c := by
  have he := opposite_ne_empty hc
  obtain ⟨hinv, _, _⟩ := @captureStonesG_spec size (gridSet g x y c) x y c he
  by_cases hchg : gridGet (captureStonesG size (gridSet g x y c) x y c).1 x y =
      gridGet (gridSet g x y c) x y
  · rw [hchg, gridGet_gridSet, if_pos ⟨rfl, rfl⟩]
  · have h := (hinv (x, y) hchg).1
    rw [gridGet_gridSet, if_pos ⟨rfl, rfl⟩] at h
    exact absurd h.symm (opposite_ne_self hc)

/-- When refilling a neighbour p (with the enemy colour) would strip the
last liberty of the played stone's group, p is the only empty neighbour of
the played point. -/
theorem ko_unique_empty {size : Nat} {gc : Grid} {x y : Int} {c : Stone}
    (hc : c ≠ Stone.EMPTY) (hin : inBounds size x y)
    (hgcxy : gridGet gc x y = c) {p : Int × Int}
    (hpE : gridGet gc p.1 p.2 = Stone.EMPTY)
    (hlib : ¬ hasLiberties size (gridSet gc p.1 p.2 c.opposite)
        (getGroup size (gridSet gc p.1 p.2 c.opposite) x y)) :
    ∀ q ∈ neighbors size (x, y), gridGet gc q.1 q.2 = Stone.EMPTY → q = p := by
  intro q hq hqE
  by_contra hqp
  apply hlib
  have hxyp : ¬ (x = p.1 ∧ y = p.2) := by
    rintro ⟨hx, hy⟩
    rw [← hx, ← hy] at hpE
    rw [hgcxy] at hpE
    exact hc hpE
  have hspxy : gridGet (gridSet gc p.1 p.2 c.opposite) x y = c := by
    rw [gridGet_gridSet, if_neg hxyp]
    exact hgcxy
  have hself : (x, y) ∈ getGroup size (gridSet gc p.1 p.2 c.opposite) x y :=
    getGroup_self hin (by rw [hspxy]; exact hc)
  refine ⟨(x, y), hself, q, hq, ?_⟩
  rw [gridGet_gridSet, if_neg]
  · exact hqE
  · rintro ⟨hx, hy⟩
    exact hqp (Prod.ext hx hy)

theorem placeStone_ko {b : GoBoard} {x y : Int} {c : Stone}
    (hv : isValidMove b x y c = true) :
    (placeStone b x y c).2.ko_point =
      if (captureStonesG b.size (gridSet b.grid x y c) x y c).2 = 1 then
        findKoG b.size (captureStonesG b.size (gridSet b.grid x y c) x y c).1
          x y c (neighbors b.size (x, y))
      else none := by
  rw [placeStone_succ hv]

/-- C3: a successful `place_stone` recomputes the ko point from scratch
(clearing any previous one): unless exactly one stone was captured the ko
point ends up unset; when it is set it is set exactly at the captured
stone's position, which must be the lone empty neighbour whose refill by
the opposite colour would be a lone single stone stripping the last
liberty of the just-played stone's group; conversely those conditions at
the captured position force the ko point there; and a subsequent move at
the ko point is rejected for either colour. -/
theorem claim_C3 :
    ∀ (b : GoBoard) (x y : Int) (c : Stone),
      c ≠ Stone.EMPTY → (placeStone b x y c).1 = true →
      ((captureStonesG b.size (gridSet b.grid x y c) x y c).2 ≠ 1 →
        (placeStone b x y c).2.ko_point = none) ∧
      (∀ p : Int × Int, (placeStone b x y c).2.ko_point = some p →
        (captureStonesG b.size (gridSet b.grid x y c) x y c).2 = 1 ∧
        p ∈ neighbors b.size (x, y) ∧
        gridGet (gridSet b.grid x y c) p.1 p.2 = c.opposite ∧
        gridGet (captureStonesG b.size (gridSet b.grid x y c) x y c).1 p.1 p.2 =
          Stone.EMPTY ∧
        (getGroup b.size
          (gridSet (captureStonesG b.size (gridSet b.grid x y c) x y c).1
            p.1 p.2 c.opposite) p.1 p.2).card = 1 ∧
        ¬ hasLiberties b.size
            (gridSet (captureStonesG b.size (gridSet b.grid x y c) x y c).1
              p.1 p.2 c.opposite)
            (getGroup b.size
              (gridSet (captureStonesG b.size (gridSet b.grid x y c) x y c).1
                p.1 p.2 c.opposite) x y)) ∧
      ((captureStonesG b.size (gridSet b.grid x y c) x y c).2 = 1 →
        ∀ p ∈ neighbors b.size (x, y),
          gridGet (gridSet b.grid x y c) p.1 p.2 = c.opposite →
          gridGet (captureStonesG b.size (gridSet b.grid x y c) x y c).1 p.1 p.2 =
            Stone.EMPTY →
          (getGroup b.size
            (gridSet (captureStonesG b.size (gridSet b.grid x y c) x y c).1
              p.1 p.2 c.opposite) p.1 p.2).card = 1 →
          ¬ hasLiberties b.size
              (gridSet (captureStonesG b.size (gridSet b.grid x y c) x y c).1
                p.1 p.2 c.opposite)
              (getGroup b.size
                (gridSet (captureStonesG b.size (gridSet b.grid x y c) x y c).1
                  p.1 p.2 c.opposite) x y) →
          (placeStone b x y c).2.ko_point = some p) ∧
      (∀ (p : Int × Int) (c2 : Stone),
        (placeStone b x y c).2.ko_point = some p →
        isValidMove (placeStone b x y c).2 p.1 p.2 c2 = false) := by
  intro b x y c hc hsucc
  have hv := (placeStone_fst_iff b x y c).mp hsucc
  have he := opposite_ne_empty hc
  have hin : inBounds b.size x y := ((isValidMove_iff b x y c).mp hv).1
  have hgcxy : gridGet (captureStonesG b.size (gridSet b.grid x y c) x y c).1
      x y = c := capture_keeps_played hc
  refine ⟨?_, ?_, ?_, ?_⟩
  · intro hk1
    rw [placeStone_ko hv, if_neg hk1]
  · intro p hp
    rw [placeStone_ko hv] at hp
    by_cases hk : (captureStonesG b.size (gridSet b.grid x y c) x y c).2 = 1
    · rw [if_pos hk] at hp
      obtain ⟨hmem, hpE, hcard, hlib⟩ := findKoG_some _ p hp
      have hk0 : (captureStonesG b.size (gridSet b.grid x y c) x y c).2 ≠ 0 := by
        rw [hk]; exact one_ne_zero
      obtain ⟨n, hn, hne1, hnE⟩ := captureStonesG_seed he hk0
      have hnp : n = p := ko_unique_empty hc hin hgcxy hpE hlib n hn hnE
      exact ⟨hk, hmem, by rw [← hnp]; exact hne1, hpE, hcard, hlib⟩
    · rw [if_neg hk] at hp
      exact absurd hp (by simp)
  · intro hk p hp hg1p hpE hcard hlib
    rw [placeStone_ko hv, if_pos hk]
    apply findKoG_reaches hpE hcard hlib _ hp
    intro q hq hqE
    exact ko_unique_empty hc hin hgcxy hpE hlib q hq hqE
  · intro p c2 hp
    exact ko_blocks c2 hp

/-- Witness for C3: black capturing the single white stone at (2, 2) on
`boardKoSetup` sets the ko point exactly there, and white may not
immediately recapture. -/
theorem claim_C3_witness :
    (placeStone boardKoSetup 3 2 Stone.BLACK).1 = true ∧
    (placeStone boardKoSetup 3 2 Stone.BLACK).2.ko_point = some (2, 2) ∧
    isValidMove (placeStone boardKoSetup 3 2 Stone.BLACK).2 2 2 Stone.WHITE
      = false := by
  have h := claim_C3 boardKoSetup 3 2 Stone.BLACK (by decide) (by decide)
  have hko : (placeStone boardKoSetup 3 2 Stone.BLACK).2.ko_point = some (2, 2) :=
    h.2.2.1 (by decide) (2, 2) (by decide) (by decide) (by decide) (by decide)
      (by decide)
  exact ⟨by decide, hko, h.2.2.2 (2, 2) Stone.WHITE hko⟩

theorem placeStone_size (b : GoBoard) (x y : Int) (c : Stone) :
    (placeStone b x y c).2.size = b.size := by
  cases hv : isValidMove b x y c
  · rw [placeStone_fail hv]
  · rw [placeStone_succ hv]

theorem placeStone_grid {b : GoBoard} {x y : Int} {c : Stone}
    (hv : isValidMove b x y c = true) :
    (placeStone b x y c).2.grid =
      (captureStonesG b.size (gridSet b.grid x y c) x y c).1 := by
  rw [placeStone_succ hv]

/-- Playing the EMPTY colour never removes anything: every group the
capture loop looks at from an EMPTY-coloured move is the empty set. -/
theorem captureFold_empty (size : Nat) :
    ∀ (l : List (Int × Int)) (acc : Grid × Nat),
      (l.foldl (captureStep size Stone.EMPTY) acc).2 = acc.2 ∧
      ∀ a b : Int,
        gridGet (l.foldl (captureStep size Stone.EMPTY) acc).1 a b =
          gridGet acc.1 a b := by
  intro l
  induction l with
  | nil => exact fun acc => ⟨rfl, fun _ _ => rfl⟩
  | cons n rest ih =>
    intro acc
    rw [List.foldl_cons]
    by_cases hcond : gridGet acc.1 n.1 n.2 = Stone.EMPTY.opposite
    · have hcondE : gridGet acc.1 n.1 n.2 = Stone.EMPTY := hcond
      have hgrp : getGroup size acc.1 n.1 n.2 = ∅ := by
        unfold getGroup
        rw [if_pos hcondE]
      have hnolib : ¬ hasLiberties size acc.1 (getGroup size acc.1 n.1 n.2) := by
        rw [hgrp]
        rintro ⟨p, hp, _⟩
        exact Finset.not_mem_empty p hp
      rw [captureStep_remove hcond hnolib]
      obtain ⟨h1, h2⟩ := ih ((removeGroupG acc.1 (getGroup size acc.1 n.1 n.2)).1,
        acc.2 + (getGroup size acc.1 n.1 n.2).card)
      refine ⟨by rw [h1, hgrp]; simp, ?_⟩
      intro a b
      rw [h2 a b]
      show gridGet (removeGroupG acc.1 (getGroup size acc.1 n.1 n.2)).1 a b =
        gridGet acc.1 a b
      rw [gridGet_removeGroupAt, hgrp, if_neg (Finset.not_mem_empty _)]
    · rw [captureStep_skip_col hcond]
      exact ih acc

/-- A move of the EMPTY colour is always rejected (its own group is the
empty set, which has no liberties, and it captures nothing). -/
theorem isValidMove_empty_color (b : GoBoard) (x y : Int) :
    isValidMove b x y Stone.EMPTY = false := by
  cases hv : isValidMove b x y Stone.EMPTY
  · rfl
  · exfalso
    obtain ⟨_, _, _, hdisj⟩ := (isValidMove_iff b x y Stone.EMPTY).mp hv
    obtain ⟨hsnd, hgrid⟩ := captureFold_empty b.size (neighbors b.size (x, y))
      (gridSet b.grid x y Stone.EMPTY, 0)
    have hxyE : gridGet (captureStonesG b.size (gridSet b.grid x y Stone.EMPTY)
        x y Stone.EMPTY).1 x y = Stone.EMPTY := by
      rw [show (captureStonesG b.size (gridSet b.grid x y Stone.EMPTY)
          x y Stone.EMPTY).1 =
        ((neighbors b.size (x, y)).foldl (captureStep b.size Stone.EMPTY)
          (gridSet b.grid x y Stone.EMPTY, 0)).1 from rfl]
      rw [hgrid x y]
      rw [show gridGet (gridSet b.grid x y Stone.EMPTY) x y = Stone.EMPTY from
        by rw [gridGet_gridSet, if_pos ⟨rfl, rfl⟩]]
    rcases hdisj with hlib | hnz
    · have hgrp : getGroup b.size (captureStonesG b.size
          (gridSet b.grid x y Stone.EMPTY) x y Stone.EMPTY).1 x y = ∅ := by
        unfold getGroup
        rw [if_pos hxyE]
      rw [hgrp] at hlib
      obtain ⟨p, hp, _⟩ := hlib
      exact Finset.not_mem_empty p hp
    · exact hnz hsnd

/-- A successful placement is never of the EMPTY colour. -/
theorem success_color_ne_empty {b : GoBoard} {x y : Int} {c : Stone}
    (h : (placeStone b x y c).1 = true) : c ≠ Stone.EMPTY := by
  rintro rfl
  rw [placeStone_fst_iff, isValidMove_empty_color] at h
  exact Bool.false_ne_true h

/-- Placing a stone does not change the groups of a colour different from
the placed one (in particular, enemy groups). -/
theorem getGroup_gridSet_other {size : Nat} {g : Grid} {x y : Int}
    {c d : Stone} {p : Int × Int}
    (hE : gridGet g x y = Stone.EMPTY) (hdc : d ≠ c) (hdE : d ≠ Stone.EMPTY)
    (hpin : inBounds size p.1 p.2)
    (hpd : gridGet (gridSet g x y c) p.1 p.2 = d) :
    getGroup size (gridSet g x y c) p.1 p.2 = getGroup size g p.1 p.2 ∧
      gridGet g p.1 p.2 = d := by
  have hpne : ¬ (p.1 = x ∧ p.2 = y) := by
    rintro ⟨h1, h2⟩
    rw [gridGet_gridSet, if_pos ⟨h1, h2⟩] at hpd
    exact hdc hpd.symm
  have hgp : gridGet g p.1 p.2 = d := by
    rw [gridGet_gridSet, if_neg hpne] at hpd
    exact hpd
  refine ⟨?_, hgp⟩
  ext q
  rw [mem_getGroup_iff hpin hpd hdE q, mem_getGroup_iff hpin hgp hdE q]
  constructor
  · intro hconn
    refine conn_mono ?_ hconn
    intro m hm
    by_cases hmxy : m.1 = x ∧ m.2 = y
    · rw [gridGet_gridSet, if_pos hmxy] at hm
      exact absurd hm.symm hdc
    · rw [gridGet_gridSet, if_neg hmxy] at hm
      exact hm
  · intro hconn
    refine conn_mono ?_ hconn
    intro m hm
    rw [gridGet_gridSet, if_neg]
    · exact hm
    · rintro ⟨h1, h2⟩
      have : gridGet g m.1 m.2 = Stone.EMPTY := by rw [h1, h2]; exact hE
      rw [hm] at this
      exact hdE this

/-- A non-empty stone that differs from a non-empty colour is that
colour's opposite (the intersection states are a three-element type). -/
theorem stone_ne_cases {s c : Stone} (hs : s ≠ Stone.EMPTY)
    (hc : c ≠ Stone.EMPTY) (hsc : s ≠ c) : s = c.opposite := by
  cases s <;> cases c <;> simp_all [Stone.opposite]

/-- C9: on every board reachable from an empty board by successful
`place_stone` calls, every maximal same-colour connected group of occupied
intersections has at least one liberty: no successful move ever leaves any
group on the board with zero liberties. -/
theorem claim_C9 :
    ∀ b : GoBoard, Reachable b →
      ∀ p : Int × Int, p ∈ cells b.size → b.get p.1 p.2 ≠ Stone.EMPTY →
        hasLiberties b.size b.grid (getGroup b.size b.grid p.1 p.2) := by
  intro b0 hreach
  induction hreach with
  | base size hsz =>
    intro p _ hocc
    exact absurd rfl hocc
  | step b x y c hb h ih =>
    have hc : c ≠ Stone.EMPTY := success_color_ne_empty h
    have hv : isValidMove b x y c = true := (placeStone_fst_iff b x y c).mp h
    have he := opposite_ne_empty hc
    have hoc := opposite_ne_self hc
    obtain ⟨hin, hE, hko, hdisj⟩ := (isValidMove_iff b x y c).mp hv
    have hE' : gridGet b.grid x y = Stone.EMPTY := hE
    obtain ⟨hinv, hcount, hcomplete⟩ :=
      @captureStonesG_spec b.size (gridSet b.grid x y c) x y c he
    have hsize : (placeStone b x y c).2.size = b.size := placeStone_size b x y c
    have hgrid : (placeStone b x y c).2.grid =
        (captureStonesG b.size (gridSet b.grid x y c) x y c).1 :=
      placeStone_grid hv
    have hgcxy : gridGet (captureStonesG b.size (gridSet b.grid x y c) x y c).1
        x y = c := capture_keeps_played hc
    intro p hp hocc
    rw [hsize] at hp
    have hpin : inBounds b.size p.1 p.2 := mem_cells.mp hp
    rw [hsize, hgrid]
    rw [show (placeStone b x y c).2.get p.1 p.2 =
      gridGet (captureStonesG b.size (gridSet b.grid x y c) x y c).1 p.1 p.2 from
        congrFun (congrFun (congrArg gridGet hgrid) p.1) p.2] at hocc
    by_cases hA : (x, y) ∈ getGroup b.size
        (captureStonesG b.size (gridSet b.grid x y c) x y c).1 p.1 p.2
    · -- the group of p is the just-played stone's group
      have hgrpeq : getGroup b.size
          (captureStonesG b.size (gridSet b.grid x y c) x y c).1 x y =
          getGroup b.size (captureStonesG b.size (gridSet b.grid x y c) x y c).1
            p.1 p.2 :=
        getGroup_eq_of_mem hpin rfl hocc hA
      rw [← hgrpeq]
      rcases hdisj with hlib | hnz
      · exact hlib
      · obtain ⟨n, hn, _, hnE⟩ := captureStonesG_seed he hnz
        exact ⟨(x, y), getGroup_self hin (by rw [hgcxy]; exact hc), n, hn, hnE⟩
    · by_cases hd : gridGet (captureStonesG b.size (gridSet b.grid x y c) x y c).1
          p.1 p.2 = c
      · -- own colour, in a group not containing the played stone
        have hpxy : ¬ (p.1 = x ∧ p.2 = y) := by
          rintro ⟨h1, h2⟩
          apply hA
          have hself : (x, y) ∈ getGroup b.size
              (captureStonesG b.size (gridSet b.grid x y c) x y c).1 x y :=
            getGroup_self hin (by rw [hgcxy]; exact hc)
          rw [h1, h2]
          exact hself
        have hunch : gridGet (captureStonesG b.size (gridSet b.grid x y c) x y c).1
            p.1 p.2 = gridGet (gridSet b.grid x y c) p.1 p.2 := by
          by_contra hch
          exact hocc ((hinv p hch).2.1)
        have hg1p : gridGet (gridSet b.grid x y c) p.1 p.2 = c := by
          rw [← hunch]
          exact hd
        have hbp : gridGet b.grid p.1 p.2 = c := by
          rw [gridGet_gridSet, if_neg hpxy] at hg1p
          exact hg1p
        have hgrpeq : getGroup b.size
            (captureStonesG b.size (gridSet b.grid x y c) x y c).1 p.1 p.2 =
            getGroup b.size b.grid p.1 p.2 := by
          ext q
          rw [mem_getGroup_iff hpin hd hc q, mem_getGroup_iff hpin hbp hc q]
          constructor
          · intro hconn
            refine conn_congr hconn ?_
            intro m hm
            have hmc : gridGet (captureStonesG b.size (gridSet b.grid x y c) x y c).1
                m.1 m.2 = c := conn_color hd hm
            have hmne : ¬ (m.1 = x ∧ m.2 = y) := by
              rintro ⟨h1, h2⟩
              apply hA
              rw [mem_getGroup_iff hpin hd hc]
              rw [show ((x, y) : Int × Int) = m from (Prod.ext h1 h2).symm]
              exact hm
            have hmunch : gridGet (captureStonesG b.size (gridSet b.grid x y c) x y c).1
                m.1 m.2 = gridGet (gridSet b.grid x y c) m.1 m.2 := by
              by_contra hch
              have hmE := (hinv m hch).2.1
              rw [hmc] at hmE
              exact hc hmE
            rw [hmunch, gridGet_gridSet, if_neg hmne]
          · intro hconn
            refine conn_mono ?_ hconn
            intro m hm
            have hmne : ¬ (m.1 = x ∧ m.2 = y) := by
              rintro ⟨h1, h2⟩
              have hmE : gridGet b.grid m.1 m.2 = Stone.EMPTY := by
                rw [h1, h2]
                exact hE'
              rw [hm] at hmE
              exact hc hmE
            have hg1m : gridGet (gridSet b.grid x y c) m.1 m.2 = c := by
              rw [gridGet_gridSet, if_neg hmne]
              exact hm
            by_cases hch : gridGet (captureStonesG b.size (gridSet b.grid x y c) x y c).1
                m.1 m.2 = gridGet (gridSet b.grid x y c) m.1 m.2
            · rw [hch]
              exact hg1m
            · have := (hinv m hch).1
              rw [hg1m] at this
              exact absurd this.symm hoc
        obtain ⟨m, hm, q, hqn, hqE⟩ := ih p hp
          (by show gridGet b.grid p.1 p.2 ≠ Stone.EMPTY; rw [hbp]; exact hc)
        have hqxy : ¬ (q.1 = x ∧ q.2 = y) := by
          rintro ⟨h1, h2⟩
          apply hA
          have hmgc : m ∈ getGroup b.size
              (captureStonesG b.size (gridSet b.grid x y c) x y c).1 p.1 p.2 := by
            rw [hgrpeq]
            exact hm
          have hmconn := (mem_getGroup_iff hpin hd hc m).mp hmgc
          have hmcolor : gridGet (captureStonesG b.size (gridSet b.grid x y c) x y c).1
              m.1 m.2 = c := conn_color hd hmconn
          have hmin : inBounds b.size m.1 m.2 := conn_inBounds hpin hmconn
          have hq_is : q = (x, y) := Prod.ext h1 h2
          have hstep : stepRel b.size
              (captureStonesG b.size (gridSet b.grid x y c) x y c).1 c m (x, y) := by
            refine ⟨hmin, ?_, hmcolor, hgcxy⟩
            rw [← hq_is]
            exact hqn
          exact (mem_getGroup_iff hpin hd hc (x, y)).mpr (hmconn.tail hstep)
        have hq_g1 : gridGet (gridSet b.grid x y c) q.1 q.2 = Stone.EMPTY := by
          rw [gridGet_gridSet, if_neg hqxy]
          exact hqE
        have hq_gc : gridGet (captureStonesG b.size (gridSet b.grid x y c) x y c).1
            q.1 q.2 = Stone.EMPTY := by
          by_cases hch : gridGet (captureStonesG b.size (gridSet b.grid x y c) x y c).1
              q.1 q.2 = gridGet (gridSet b.grid x y c) q.1 q.2
          · rw [hch]
            exact hq_g1
          · exact (hinv q hch).2.1
        refine ⟨m, ?_, q, hqn, hq_gc⟩
        rw [hgrpeq]
        exact hm
      · -- enemy colour: a surviving enemy group
        have hpe : gridGet (captureStonesG b.size (gridSet b.grid x y c) x y c).1
            p.1 p.2 = c.opposite := stone_ne_cases hocc hc hd
        obtain ⟨h1p, _, hgrpeq_c, hlibiff⟩ := capture_component_eq he hinv hpin hpe
        obtain ⟨hbgrp, hbp⟩ := @getGroup_gridSet_other b.size b.grid x y
          c c.opposite p hE' hoc he hpin h1p
        by_cases hlibg1 : hasLiberties b.size (gridSet b.grid x y c)
            (getGroup b.size (gridSet b.grid x y c) p.1 p.2)
        · rw [hgrpeq_c]
          exact hlibiff.mpr hlibg1
        · exfalso
          obtain ⟨m, hm, q, hqn, hqE_b⟩ := ih p hp
            (by show gridGet b.grid p.1 p.2 ≠ Stone.EMPTY; rw [hbp]; exact he)
          have hm_g1 : m ∈ getGroup b.size (gridSet b.grid x y c) p.1 p.2 := by
            rw [hbgrp]
            exact hm
          by_cases hq_xy : q.1 = x ∧ q.2 = y
          · have hm_color : gridGet (gridSet b.grid x y c) m.1 m.2 = c.opposite :=
              getGroup_color hpin h1p he hm_g1
            have hm_in : inBounds b.size m.1 m.2 :=
              mem_cells.mp (getGroup_mem_cells hpin h1p he hm_g1)
            have hq_is : q = (x, y) := Prod.ext hq_xy.1 hq_xy.2
            have hmn_xy : m ∈ neighbors b.size (x, y) := by
              apply mem_neighbors_symm hm_in
              rw [← hq_is]
              exact hqn
            have hcomp_m : getGroup b.size (gridSet b.grid x y c) m.1 m.2 =
                getGroup b.size (gridSet b.grid x y c) p.1 p.2 :=
              getGroup_eq_of_mem hpin h1p he hm_g1
            have hnl_m : ¬ hasLiberties b.size (gridSet b.grid x y c)
                (getGroup b.size (gridSet b.grid x y c) m.1 m.2) := by
              rw [hcomp_m]
              exact hlibg1
            have hall := hcomplete m hmn_xy hm_color hnl_m
            have hpE : gridGet (captureStonesG b.size (gridSet b.grid x y c) x y c).1
                p.1 p.2 = Stone.EMPTY := by
              apply hall
              rw [hcomp_m]
              exact getGroup_self hpin (by rw [h1p]; exact he)
            rw [hpe] at hpE
            exact he hpE
          · apply hlibg1
            refine ⟨m, hm_g1, q, hqn, ?_⟩
            rw [gridGet_gridSet, if_neg hq_xy]
            exact hqE_b

/-- Witness for C9: the board with one black stone at (2, 2) is reachable
and that stone's group has a liberty. -/
theorem claim_C9_witness :
    Reachable boardOneStone ∧
    hasLiberties boardOneStone.size boardOneStone.grid
      (getGroup boardOneStone.size boardOneStone.grid 2 2) := by
  have hr : Reachable boardOneStone :=
    Reachable.step (emptyBoard 9) 2 2 Stone.BLACK
      (Reachable.base 9 (Or.inl rfl)) (by decide)
  exact ⟨hr, claim_C9 boardOneStone hr (2, 2) (by decide) (by decide)⟩

/-- C4: `undoLast` on a board with non-empty history removes the last
entry and yields a grid, both capture counters, and a ko point identical
to those of a board built by replaying the remaining history in order
through placement on a fresh empty board of the same size, skipping pass
entries; on empty history it returns false and changes nothing. -/
theorem claim_C4 :
    ∀ b : GoBoard,
      (b.move_history = [] → undoLastMove b = (false, b)) ∧
      (b.move_history ≠ [] →
        (undoLastMove b).1 = true ∧
        (undoLastMove b).2.move_history = b.move_history.dropLast ∧
        (undoLastMove b).2.size = b.size ∧
        (∀ a a' : Int, (undoLastMove b).2.get a a' =
          (replayMoves b.size b.move_history.dropLast).get a a') ∧
        (undoLastMove b).2.captured_black =
          (replayMoves b.size b.move_history.dropLast).captured_black ∧
        (undoLastMove b).2.captured_white =
          (replayMoves b.size b.move_history.dropLast).captured_white ∧
        (undoLastMove b).2.ko_point =
          (replayMoves b.size b.move_history.dropLast).ko_point) := by
  intro b
  constructor
  · intro hemp
    unfold undoLastMove
    rw [if_pos hemp]
  · intro hne
    unfold undoLastMove
    rw [if_neg hne]
    exact ⟨rfl, rfl, rfl, fun _ _ => rfl, rfl, rfl, rfl⟩

/-- Witness for C4: undoing the single move of `boardOneStone` succeeds,
truncates the history, and restores the replayed (empty) state. -/
theorem claim_C4_witness :
    boardOneStone.move_history ≠ [] ∧
    (undoLastMove boardOneStone).1 = true ∧
    (undoLastMove boardOneStone).2.move_history =
      boardOneStone.move_history.dropLast ∧
    (undoLastMove boardOneStone).2.ko_point =
      (replayMoves boardOneStone.size
        boardOneStone.move_history.dropLast).ko_point := by
  have h := (claim_C4 boardOneStone).2 (by decide)
  exact ⟨by decide, h.1, h.2.1, h.2.2.2.2.2.2⟩

theorem stoneOfValue_value (s : Stone) : stoneOfValue s.value = s := by
  cases s <;> rfl

/-- C5: loading the saved snapshot of a board reproduces a board
indistinguishable from it: same size, same `get` at every in-bounds
position, same capture counters, same move history (passes included as
(-1, -1, colour) triples), and same ko point. -/
theorem claim_C5 :
    ∀ b : GoBoard, (b.size = 9 ∨ b.size = 13 ∨ b.size = 19) →
      ∃ b2 : GoBoard, loadFromDict (saveToDict b) = some b2 ∧
        b2.size = b.size ∧
        (∀ x y : Int, inBounds b.size x y → b2.get x y = b.get x y) ∧
        b2.captured_black = b.captured_black ∧
        b2.captured_white = b.captured_white ∧
        b2.move_history = b.move_history ∧
        b2.ko_point = b.ko_point := by
  intro b hsz
  have hvalid : saveDictValid (saveToDict b) := by
    refine ⟨hsz, by simp [saveToDict], ?_, ?_⟩
    · intro row hrow
      simp only [saveToDict, List.mem_map, List.mem_range] at hrow
      obtain ⟨y, _, rfl⟩ := hrow
      refine ⟨by simp [saveToDict], ?_⟩
      intro v hv
      simp only [List.mem_map, List.mem_range] at hv
      obtain ⟨x, _, rfl⟩ := hv
      cases b.get x y <;> simp [Stone.value]
    · intro m hm
      simp only [saveToDict, List.mem_map] at hm
      obtain ⟨mv, _, rfl⟩ := hm
      cases mv.color <;> simp [Stone.value]
  unfold loadFromDict
  rw [if_pos hvalid]
  refine ⟨_, rfl, rfl, ?_, rfl, rfl, ?_, ?_⟩
  · intro x y hxy
    show (if inBounds b.size x y then
        stoneOfValue (((saveToDict b).board.getD y.toNat []).getD x.toNat 0)
      else Stone.EMPTY) = b.get x y
    rw [if_pos hxy]
    obtain ⟨hx0, hxs, hy0, hys⟩ := hxy
    have hyn : y.toNat < b.size := by omega
    have hxn : x.toNat < b.size := by omega
    have hrow : (saveToDict b).board.getD y.toNat [] =
        (List.range b.size).map
          (fun x' : Nat => (b.get (Int.ofNat x') (Int.ofNat y.toNat)).value) := by
      show ((List.range b.size).map
        (fun y' : Nat => (List.range b.size).map
          (fun x' : Nat => (b.get (Int.ofNat x') (Int.ofNat y')).value))).getD
            y.toNat [] = _
      rw [List.getD_eq_getElem?_getD, List.getElem?_map, List.getElem?_range hyn]
      rfl
    rw [hrow, List.getD_eq_getElem?_getD, List.getElem?_map,
      List.getElem?_range hxn]
    show stoneOfValue (b.get (Int.ofNat x.toNat) (Int.ofNat y.toNat)).value =
      b.get x y
    rw [stoneOfValue_value]
    rw [show Int.ofNat x.toNat = x by simp only [Int.ofNat_eq_coe]; omega,
      show Int.ofNat y.toNat = y by simp only [Int.ofNat_eq_coe]; omega]
  · show (saveToDict b).moves.map
        (fun m => (⟨m.1, m.2.1, stoneOfValue m.2.2⟩ : Move)) = b.move_history
    show (b.move_history.map (fun m => (m.x, m.y, m.color.value))).map
        (fun m => (⟨m.1, m.2.1, stoneOfValue m.2.2⟩ : Move)) = b.move_history
    rw [List.map_map]
    have hid : ((fun m : Int × Int × Nat => (⟨m.1, m.2.1, stoneOfValue m.2.2⟩ : Move)) ∘
        (fun m : Move => (m.x, m.y, m.color.value))) = id := by
      funext m
      cases m
      simp [stoneOfValue_value, Function.comp]
    rw [hid, List.map_id]
  · show (if (saveToDict b).ko_point.isSome then (saveToDict b).ko_point else none) =
      b.ko_point
    cases hk : b.ko_point <;> simp [saveToDict, hk]

/-- Witness for C5: the one-stone board round-trips through
save/load with all observable fields preserved. -/
theorem claim_C5_witness :
    (boardOneStone.size = 9 ∨ boardOneStone.size = 13 ∨ boardOneStone.size = 19) ∧
    (∃ b2 : GoBoard, loadFromDict (saveToDict boardOneStone) = some b2 ∧
      b2.size = boardOneStone.size ∧
      (∀ x y : Int, inBounds boardOneStone.size x y →
        b2.get x y = boardOneStone.get x y) ∧
      b2.captured_black = boardOneStone.captured_black ∧
      b2.captured_white = boardOneStone.captured_white ∧
      b2.move_history = boardOneStone.move_history ∧
      b2.ko_point = boardOneStone.ko_point) :=
  ⟨Or.inl (by decide), claim_C5 boardOneStone (Or.inl (by decide))⟩

end CorrespodenceGo
